import Mathlib

/-!
# Donachain core: shallow embedding and verification

This file embeds the three Solidity contracts of the Donachain platform —
`DonationManager` (the Campaign Ledger), `DonachainNFT` (the Certificate
Registry) and `Voting` (the Ballot Registry) — as pure Lean definitions,
and proves/refutes the specification's claims about them.

Modelling conventions:
* Addresses and amounts (wei) are `Nat`; address `0` is the null address.
* Solidity mappings become Lean functions updated pointwise; dynamic
  arrays become `List`s (appended at the tail, like `push`).
* A reverting call is `Except.error e`: by EVM semantics a revert discards
  every state change of the call, so an error result carries no new state.
* `block.timestamp`, `blockhash` and the keccak image used by
  `_generateRandom` are environment inputs, passed as explicit parameters
  to each operation.
* The three contracts are deployed once and wired together; the combined
  on-chain state is a single `World`.  `Voting.setNFTContract` /
  re-deployment of the registry is outside the model (one fixed registry
  instance), matching the spec's single-Certificate-Registry architecture.
-/

namespace Donachain

/-- `1 ether = 10^18 wei` (Solidity's `ether` literal suffix).
Throughout, account addresses and wei amounts are plain `Nat`;
address `0` is Solidity's `address(0)`. -/
def etherUnit : Nat := 10 ^ 18

/-- Error kinds, the spec's error taxonomy (§7); each `require` in the
source maps to the taxonomy entry the spec assigns to it. -/
inductive DErr where
  | Unauthorized
  | NotFound
  | InvalidInput
  | CampaignInactive
  | DeadlinePassed
  | InsufficientBalance
  | NotOwner
  | AlreadyUsed
  | CampaignMismatch
  deriving Repr, DecidableEq

/-! ## Certificate Registry: tier logic (`DonachainNFT.sol`) -/

/-- `enum Tier { Bronze, Silver, Gold, Special }` from `DonachainNFT.sol`. -/
inductive Tier where
  | Bronze
  | Silver
  | Gold
  | Special
  deriving Repr, DecidableEq

/-- `SILVER_THRESHOLD = 0.05 ether` (`DonachainNFT.sol:38`). -/
def SILVER_THRESHOLD : Nat := 5 * 10 ^ 16

/-- `GOLD_THRESHOLD = 0.1 ether` (`DonachainNFT.sol:41`). -/
def GOLD_THRESHOLD : Nat := 10 ^ 17

/-- `SPECIAL_CHANCE = 500` out of 10000 (`DonachainNFT.sol:44`). -/
def SPECIAL_CHANCE : Nat := 500

/-- `MIN_DONATION_FOR_NFT = 0.01 ether` (`DonationManager`, part_000:146). -/
def MIN_DONATION_FOR_NFT : Nat := 10 ^ 16

/-- `_generateRandom` (`DonachainNFT.sol:249-261`): the keccak image of the
packed entropy (block time, prevrandao, donor, tokenId, nonce) is an
environment input `entropy`; the function returns it reduced mod 10000. -/
def generateRandom (entropy : Nat) : Nat :=
  entropy % 10000

/-- `_determineTier` (`DonachainNFT.sol:218-238`), with the pseudo-random
draw `random ∈ [0, 10000)` already computed by `generateRandom`. -/
def determineTier (random : Nat) (amount : Nat) : Tier :=
  if random < SPECIAL_CHANCE then
    Tier.Special
  else if amount ≥ GOLD_THRESHOLD then
    Tier.Gold
  else if amount ≥ SILVER_THRESHOLD then
    Tier.Silver
  else
    Tier.Bronze

/-- Rank of the three amount-based tiers, for stating monotonicity. -/
def tierRank : Tier → Nat
  | Tier.Bronze => 0
  | Tier.Silver => 1
  | Tier.Gold => 2
  | Tier.Special => 3

/-! ## Data model (`DonationManager`, part_000:119-631) -/

/-- `struct Campaign` (part_000:186-197). -/
structure Campaign where
  id : Nat
  title : String
  description : String
  imageCID : String
  targetAmount : Nat
  totalRaised : Nat
  isActive : Bool
  createdAt : Nat
  deadline : Nat
  creator : Nat
  deriving Repr, DecidableEq

/-- The all-zero `Campaign`, what a Solidity mapping returns for an
absent key; existence is tested by `campaigns[id].id != 0`. -/
def zeroCampaign : Campaign :=
  { id := 0, title := "", description := "", imageCID := "", targetAmount := 0
    totalRaised := 0, isActive := false, createdAt := 0, deadline := 0, creator := 0 }

/-- `struct Donation` (part_000:202-210); `txHash` is the `bytes32`
blockhash value, modelled as a `Nat`. -/
structure Donation where
  id : Nat
  donor : Nat
  campaignId : Nat
  amount : Nat
  timestamp : Nat
  txHash : Nat
  nftMinted : Bool
  deriving Repr, DecidableEq

/-- `struct Expense` (part_000:219-227). -/
structure Expense where
  id : Nat
  description : String
  amount : Nat
  recipient : Nat
  timestamp : Nat
  txHash : Nat
  campaignId : Nat
  deriving Repr, DecidableEq

/-- The storage of the `DonationManager` contract (part_000:139-631),
plus its ether balance `balance` (`address(this).balance`). -/
structure ManagerState where
  owner : Nat
  nftContract : Nat
  nextCampaignId : Nat
  nextExpenseId : Nat
  totalDonationsReceived : Nat
  totalExpensesLogged : Nat
  campaigns : Nat → Campaign
  campaignIds : List Nat
  allDonations : List Donation
  donorDonations : Nat → List Nat
  campaignDonations : Nat → List Nat
  allExpenses : List Expense
  donorTotalAmount : Nat → Nat
  uniqueDonors : List Nat
  hasDonated : Nat → Bool
  balance : Nat

/-- `struct DonationDetail` (`DonachainNFT.sol:76-84`). -/
structure DonationDetail where
  donor : Nat
  amount : Nat
  campaignId : Nat
  campaignTitle : String
  timestamp : Nat
  txHash : Nat
  tier : Tier
  deriving Repr, DecidableEq

/-- All-zero `DonationDetail` (absent mapping key). -/
def zeroDetail : DonationDetail :=
  { donor := 0, amount := 0, campaignId := 0, campaignTitle := ""
    timestamp := 0, txHash := 0, tier := Tier.Bronze }

/-- The storage of the `DonachainNFT` contract: its `Ownable` admin,
counters, the authorized minter, the ERC-721 `_owners` mapping
(`owners t = 0` means token `t` does not exist), `donationDetails`
and `donorTokens`. -/
structure NFTState where
  nftOwner : Nat
  nextTokenId : Nat
  randomNonce : Nat
  donationManager : Nat
  owners : Nat → Nat
  donationDetails : Nat → DonationDetail
  donorTokens : Nat → List Nat

/-- The storage of the `Voting` contract (part_000:30-118). -/
structure VotingState where
  votingOwner : Nat
  tokenUsed : Nat → Bool
  campaignVotes : Nat → Nat

/-- The combined deployed system: the three contracts' storage plus the
`DonationManager`'s own account address (`managerAddr`), which is the
`msg.sender` the registry sees when `donate` mints. -/
structure World where
  manager : ManagerState
  nft : NFTState
  voting : VotingState
  managerAddr : Nat

/-! ## Operations -/

/-- `DonachainNFT.setDonationManager` (`DonachainNFT.sol:145-149`). -/
def setDonationManager (sender addr : Nat) (n : NFTState) :
    Except DErr NFTState :=
  if sender ≠ n.nftOwner then .error .Unauthorized
  else if addr = 0 then .error .InvalidInput
  else .ok { n with donationManager := addr }

/-- `DonachainNFT.mintCertificate` (`DonachainNFT.sol:169-201`).
`entropy` is the keccak image drawn by `_generateRandom`; the nonce is
incremented on every draw.  `_safeMint` reverts on a null receiver or an
already-existing token id (ERC-721 `_mint`). -/
def mintCertificate (caller donor : Nat) (amount : Nat)
    (campaignId : Nat) (campaignTitle : String) (txHash now entropy : Nat)
    (n : NFTState) : Except DErr (NFTState × Nat) :=
  if caller ≠ n.donationManager then .error .Unauthorized
  else
    let tokenId := n.nextTokenId
    let tier := determineTier (generateRandom entropy) amount
    if donor = 0 then .error .InvalidInput
    else if n.owners tokenId ≠ 0 then .error .InvalidInput
    else
      let detail : DonationDetail :=
        { donor := donor, amount := amount, campaignId := campaignId
          campaignTitle := campaignTitle, timestamp := now
          txHash := txHash, tier := tier }
      .ok ({ n with
              nextTokenId := tokenId + 1
              randomNonce := n.randomNonce + 1
              owners := fun t => if t = tokenId then donor else n.owners t
              donationDetails := fun t =>
                if t = tokenId then detail else n.donationDetails t
              donorTokens := fun a =>
                if a = donor then n.donorTokens donor ++ [tokenId]
                else n.donorTokens a },
            tokenId)

/-- ERC-721 `transferFrom` on the registry, restricted to the token's
current owner as caller (approvals are not modelled); `DonachainNFT`
does not override transfers, so only `_owners` changes. -/
def transferCert (caller dest : Nat) (tokenId : Nat) (n : NFTState) :
    Except DErr NFTState :=
  if n.owners tokenId = 0 then .error .NotFound
  else if caller ≠ n.owners tokenId then .error .Unauthorized
  else if dest = 0 then .error .InvalidInput
  else .ok { n with owners := fun t => if t = tokenId then dest else n.owners t }

/-- `Voting.vote` (part_000:81-99).  `ownerOf` reverts for a nonexistent
token; then the used-flag, then the certificate/campaign match are
checked; on success the flag is set and the tally incremented. -/
def vote (sender : Nat) (campaignId tokenId : Nat)
    (n : NFTState) (v : VotingState) : Except DErr VotingState :=
  if n.owners tokenId = 0 then .error .NotFound
  else if n.owners tokenId ≠ sender then .error .NotOwner
  else if v.tokenUsed tokenId then .error .AlreadyUsed
  else if (n.donationDetails tokenId).campaignId ≠ campaignId then
    .error .CampaignMismatch
  else
    .ok { v with
           tokenUsed := fun t => if t = tokenId then true else v.tokenUsed t
           campaignVotes := fun c =>
             if c = campaignId then v.campaignVotes c + 1
             else v.campaignVotes c }

/-- `Voting.hasVoted` (part_000:108-110). -/
def hasVoted (tokenId : Nat) (v : VotingState) : Bool :=
  v.tokenUsed tokenId

/-- `Voting.getVotes` (part_000:115-117). -/
def getVotes (campaignId : Nat) (v : VotingState) : Nat :=
  v.campaignVotes campaignId

/-- `DonationManager.setNFTContract` (part_000:300-303). -/
def setNFTContract (sender addr : Nat) (m : ManagerState) :
    Except DErr ManagerState :=
  if sender ≠ m.owner then .error .Unauthorized
  else if addr = 0 then .error .InvalidInput
  else .ok { m with nftContract := addr }

/-- `DonationManager.createCampaign` (part_000:314-348).  String lengths
are `bytes(·).length`; `now` is `block.timestamp`. -/
def createCampaign (sender : Nat) (title description imageCID : String)
    (targetAmount : Nat) (deadline now : Nat) (m : ManagerState) :
    Except DErr (ManagerState × Nat) :=
  if sender ≠ m.owner then .error .Unauthorized
  else if title.length = 0 then .error .InvalidInput
  else if title.length > 100 then .error .InvalidInput
  else if description.length = 0 then .error .InvalidInput
  else if targetAmount = 0 then .error .InvalidInput
  else if ¬ (deadline > now) then .error .InvalidInput
  else
    let campaignId := m.nextCampaignId
    let c : Campaign :=
      { id := campaignId, title := title, description := description
        imageCID := imageCID, targetAmount := targetAmount, totalRaised := 0
        isActive := true, createdAt := now, deadline := deadline
        creator := sender }
    .ok ({ m with
            nextCampaignId := campaignId + 1
            campaigns := fun i => if i = campaignId then c else m.campaigns i
            campaignIds := m.campaignIds ++ [campaignId] },
          campaignId)

/-- `DonationManager.updateCampaignStatus` (part_000:355-359). -/
def updateCampaignStatus (sender : Nat) (campaignId : Nat) (isActive : Bool)
    (m : ManagerState) : Except DErr ManagerState :=
  if sender ≠ m.owner then .error .Unauthorized
  else if (m.campaigns campaignId).id = 0 then .error .NotFound
  else
    .ok { m with campaigns := fun i =>
            if i = campaignId then { m.campaigns campaignId with isActive := isActive }
            else m.campaigns i }

/-- The audit-log half of `withdrawWithLog` (part_000:387-404): allocate
the expense id, append the `Expense` record, bump `totalExpensesLogged`.
In the source this all executes before `recipient.transfer(amount)`. -/
def withdrawLogged (description : String) (recipient : Nat) (amount : Nat)
    (campaignId now txHash : Nat) (m : ManagerState) : ManagerState :=
  let expense : Expense :=
    { id := m.nextExpenseId, description := description, amount := amount
      recipient := recipient, timestamp := now, txHash := txHash
      campaignId := campaignId }
  { m with
     nextExpenseId := m.nextExpenseId + 1
     allExpenses := m.allExpenses ++ [expense]
     totalExpensesLogged := m.totalExpensesLogged + amount }

/-- `recipient.transfer(amount)` (part_000:407): the contract's balance
drops by `amount`. -/
def transferOut (amount : Nat) (m : ManagerState) : ManagerState :=
  { m with balance := m.balance - amount }

/-- `DonationManager.withdrawWithLog` (part_000:375-410): validation,
then the log half (`withdrawLogged`), then the value transfer
(`transferOut`) — in that source order. -/
def withdrawWithLog (sender : Nat) (description : String) (recipient : Nat)
    (amount : Nat) (campaignId now txHash : Nat) (m : ManagerState) :
    Except DErr ManagerState :=
  if sender ≠ m.owner then .error .Unauthorized
  else if description.length = 0 then .error .InvalidInput
  else if recipient = 0 then .error .InvalidInput
  else if amount = 0 then .error .InvalidInput
  else if m.balance < amount then .error .InsufficientBalance
  else
    .ok (transferOut amount
          (withdrawLogged description recipient amount campaignId now txHash m))

/-- `DonationManager.donate` (part_000:425-479), acting on the combined
`World` because a qualifying donation synchronously calls
`nftContract.mintCertificate` with the manager's address as caller;
a failing mint reverts the whole call.  `value` is `msg.value` (credited
to the contract's balance), `bh` the blockhash, `entropy` the keccak
image consumed by the registry's tier draw. -/
def donate (sender : Nat) (value : Nat) (campaignId now bh entropy : Nat)
    (w : World) : Except DErr World :=
  let m := w.manager
  if value = 0 then .error .InvalidInput
  else if (m.campaigns campaignId).id = 0 then .error .NotFound
  else if ¬ (m.campaigns campaignId).isActive then .error .CampaignInactive
  else if ¬ (now ≤ (m.campaigns campaignId).deadline) then .error .DeadlinePassed
  else
    let campaign := m.campaigns campaignId
    let donationId := m.allDonations.length + 1
    let donation : Donation :=
      { id := donationId, donor := sender, campaignId := campaignId
        amount := value, timestamp := now, txHash := bh, nftMinted := false }
    let donationIndex := m.allDonations.length
    let m1 : ManagerState :=
      { m with
         allDonations := m.allDonations ++ [donation]
         donorDonations := fun a =>
           if a = sender then m.donorDonations sender ++ [donationIndex]
           else m.donorDonations a
         campaignDonations := fun c =>
           if c = campaignId then m.campaignDonations campaignId ++ [donationIndex]
           else m.campaignDonations c
         campaigns := fun i =>
           if i = campaignId then { campaign with totalRaised := campaign.totalRaised + value }
           else m.campaigns i
         totalDonationsReceived := m.totalDonationsReceived + value
         donorTotalAmount := fun a =>
           if a = sender then m.donorTotalAmount sender + value
           else m.donorTotalAmount a
         hasDonated := fun a => if a = sender then true else m.hasDonated a
         uniqueDonors :=
           if m.hasDonated sender then m.uniqueDonors else m.uniqueDonors ++ [sender]
         balance := m.balance + value }
    if value ≥ MIN_DONATION_FOR_NFT ∧ m.nftContract ≠ 0 then
      match mintCertificate w.managerAddr sender value campaignId
              campaign.title bh now entropy w.nft with
      | .error e => .error e
      | .ok (n', _) =>
        .ok { w with
               manager := { m1 with
                 allDonations :=
                   m1.allDonations.set donationIndex { donation with nftMinted := true } }
               nft := n' }
    else
      .ok { w with manager := m1 }

/-! ## Leaderboard (part_000:554-591)

The source keeps two arrays `donors`/`totals` and always swaps them at
the same pair of indices, under a condition on `totals` alone; the
embedding therefore carries a single list of `(donor, total)` pairs,
ordered as the arrays are. -/

/-- Swap the entries at positions `i` and `j`; out-of-range indices leave
the list unchanged (the loops below only use in-range indices). -/
def listSwap (l : List (Nat × Nat)) (i j : Nat) : List (Nat × Nat) :=
  match l.get? i, l.get? j with
  | some x, some y => (l.set i y).set j x
  | _, _ => l

theorem listSwap_length (l : List (Nat × Nat)) (i j : Nat) :
    (listSwap l i j).length = l.length := by
  unfold listSwap
  cases hi : l.get? i <;> cases hj : l.get? j <;> simp

/-- The inner loop of the sort (part_000:574-579): for `j` from its start
value while `j < length`, swap positions `i` and `j` whenever
`totals[j] > totals[i]`. -/
def selInner (l : List (Nat × Nat)) (i j : Nat) : List (Nat × Nat) :=
  if h : j < l.length then
    selInner (if (l.getD j (0, 0)).2 > (l.getD i (0, 0)).2 then listSwap l i j else l)
      i (j + 1)
  else l
termination_by l.length - j
decreasing_by
  split
  · rw [listSwap_length]; omega
  · omega

theorem selInner_length (l : List (Nat × Nat)) (i j : Nat) :
    (selInner l i j).length = l.length := by
  rw [selInner]
  split
  · rw [selInner_length]
    split
    · exact listSwap_length l i j
    · rfl
  · rfl
termination_by l.length - j
decreasing_by
  split
  · rw [listSwap_length]; omega
  · omega

/-- The outer loop of the sort (part_000:573-580). -/
def selSortFrom (l : List (Nat × Nat)) (i : Nat) : List (Nat × Nat) :=
  if h : i < l.length then selSortFrom (selInner l i (i + 1)) (i + 1) else l
termination_by l.length - i
decreasing_by
  rw [selInner_length]; omega

/-- The full swap sort the leaderboard runs (part_000:572-580). -/
def selSort (l : List (Nat × Nat)) : List (Nat × Nat) :=
  selSortFrom l 0

/-- `DonationManager.getLeaderboard` (part_000:554-591): clamp `count`
to the number of unique donors, pair each donor (in insertion order)
with their running total, run the swap sort, return the first `count`
addresses and amounts. -/
def getLeaderboard (count : Nat) (m : ManagerState) : List Nat × List Nat :=
  let donorCount := m.uniqueDonors.length
  let count := if count > donorCount then donorCount else count
  let pairs := m.uniqueDonors.map fun a => (a, m.donorTotalAmount a)
  let sorted := selSort pairs
  ((sorted.take count).map Prod.fst, (sorted.take count).map Prod.snd)

/-! ## The step relation and reachable states -/

/-- One external call into the system, with its environment inputs
(`sender` = `msg.sender`, `now` = `block.timestamp`, `bh` = blockhash,
`entropy` = the keccak image for the tier draw). -/
inductive Op where
  | createCampaign (sender : Nat) (title description imageCID : String)
      (targetAmount : Nat) (deadline now : Nat)
  | updateCampaignStatus (sender : Nat) (campaignId : Nat) (isActive : Bool)
  | donate (sender : Nat) (value : Nat) (campaignId now bh entropy : Nat)
  | withdrawWithLog (sender : Nat) (description : String) (recipient : Nat)
      (amount : Nat) (campaignId now bh : Nat)
  | setNFTContract (sender addr : Nat)
  | setDonationManager (sender addr : Nat)
  | transferCert (sender dest : Nat) (tokenId : Nat)
  | vote (sender : Nat) (campaignId tokenId : Nat)

/-- Execute one external call; `Except.error` is a revert (state
discarded). -/
def step (op : Op) (w : World) : Except DErr World :=
  match op with
  | .createCampaign sender title description imageCID targetAmount deadline now =>
    (createCampaign sender title description imageCID targetAmount deadline now
      w.manager).map fun (m', _) => { w with manager := m' }
  | .updateCampaignStatus sender campaignId isActive =>
    (updateCampaignStatus sender campaignId isActive w.manager).map
      fun m' => { w with manager := m' }
  | .donate sender value campaignId now bh entropy =>
    donate sender value campaignId now bh entropy w
  | .withdrawWithLog sender description recipient amount campaignId now bh =>
    (withdrawWithLog sender description recipient amount campaignId now bh
      w.manager).map fun m' => { w with manager := m' }
  | .setNFTContract sender addr =>
    (setNFTContract sender addr w.manager).map fun m' => { w with manager := m' }
  | .setDonationManager sender addr =>
    (setDonationManager sender addr w.nft).map fun n' => { w with nft := n' }
  | .transferCert sender dest tokenId =>
    (transferCert sender dest tokenId w.nft).map fun n' => { w with nft := n' }
  | .vote sender campaignId tokenId =>
    (vote sender campaignId tokenId w.nft w.voting).map
      fun v' => { w with voting := v' }

/-- The freshly deployed system: the three constructors (part_000:287-290,
`DonachainNFT.sol:129-135`, part_000:57-60) with the given admin
accounts and the manager's own address. -/
def initWorld (mOwner nOwner vOwner mAddr : Nat) : World :=
  { manager :=
      { owner := mOwner, nftContract := 0, nextCampaignId := 1
        nextExpenseId := 1, totalDonationsReceived := 0, totalExpensesLogged := 0
        campaigns := fun _ => zeroCampaign, campaignIds := []
        allDonations := [], donorDonations := fun _ => []
        campaignDonations := fun _ => [], allExpenses := []
        donorTotalAmount := fun _ => 0, uniqueDonors := []
        hasDonated := fun _ => false, balance := 0 }
    nft :=
      { nftOwner := nOwner, nextTokenId := 1, randomNonce := 0
        donationManager := 0, owners := fun _ => 0
        donationDetails := fun _ => zeroDetail, donorTokens := fun _ => [] }
    voting :=
      { votingOwner := vOwner, tokenUsed := fun _ => false
        campaignVotes := fun _ => 0 }
    managerAddr := mAddr }

/-- The states the deployed system can reach by any sequence of
successful external calls. -/
inductive Reachable : World → Prop where
  | init (mOwner nOwner vOwner mAddr : Nat) :
      Reachable (initWorld mOwner nOwner vOwner mAddr)
  | step {w w' : World} {op : Op} :
      Reachable w → step op w = .ok w' → Reachable w'

/-! ## Derived quantities the claims talk about -/

/-- Sum of the amounts of all `Donation` records carrying campaign id `i`. -/
def campaignSum (m : ManagerState) (i : Nat) : Nat :=
  ((m.allDonations.filter fun d => d.campaignId == i).map (·.amount)).sum

/-- Number of minted certificates (token ids `1 … nextTokenId-1`) whose
used-flag is set and whose stored campaign id is `c`. -/
def usedVoteCount (w : World) (c : Nat) : Nat :=
  (List.range' 1 (w.nft.nextTokenId - 1)).countP
    fun t => w.voting.tokenUsed t && (w.nft.donationDetails t).campaignId == c

/-- The amount a single operation donates to campaign `i`: the attached
value for a `donate` aimed at `i`, zero for everything else. -/
def donatedTo (op : Op) (i : Nat) : Nat :=
  match op with
  | .donate _ value campaignId _ _ _ => if campaignId = i then value else 0
  | _ => 0

/-! ## Generic list lemmas -/

theorem set_append_length {α : Type} (l : List α) (a b : α) :
    (l ++ [a]).set l.length b = l ++ [b] := by
  induction l with
  | nil => rfl
  | cons x xs ih => simp [List.set, ih]

theorem countP_congr_on {α : Type} (l : List α) (p q : α → Bool)
    (h : ∀ x ∈ l, p x = q x) : l.countP p = l.countP q := by
  induction l with
  | nil => rfl
  | cons x xs ih =>
    rw [List.countP_cons, List.countP_cons, h x (by simp),
      ih fun y hy => h y (by simp [hy])]

theorem countP_update_point {α : Type} (l : List α) (t : α) (p q : α → Bool)
    (hnd : l.Nodup) (hmem : t ∈ l) (hpt : p t = false) (hqt : q t = true)
    (hagree : ∀ x ∈ l, x ≠ t → q x = p x) :
    l.countP q = l.countP p + 1 := by
  induction l with
  | nil => cases hmem
  | cons x xs ih =>
    rw [List.countP_cons, List.countP_cons]
    rcases List.mem_cons.mp hmem with hx | hx
    · subst hx
      have hxs : ∀ y ∈ xs, q y = p y := by
        intro y hy
        exact hagree y (by simp [hy]) fun hyx => (List.nodup_cons.mp hnd).1 (hyx ▸ hy)
      rw [countP_congr_on xs q p hxs, hpt, hqt]
      simp
    · have hxt : x ≠ t := fun hxeq => (List.nodup_cons.mp hnd).1 (hxeq ▸ hx)
      rw [hagree x (by simp) hxt,
        ih (List.nodup_cons.mp hnd).2 hx fun y hy hyt => hagree y (by simp [hy]) hyt]
      omega

/-! ## The global invariant of reachable worlds -/

/-- Auxiliary invariant bundle, proved inductive over `step`; the claims
C1–C3 and C2's tally equation are fields of it. -/
structure WorldInv (w : World) : Prop where
  /-- Campaign ids not yet allocated are absent. -/
  camp_fresh : ∀ i, w.manager.nextCampaignId ≤ i → w.manager.campaigns i = zeroCampaign
  /-- An existing campaign's stored id is its key. -/
  camp_id : ∀ i, (w.manager.campaigns i).id ≠ 0 → (w.manager.campaigns i).id = i
  /-- C1's ledger equation: raised = sum of that campaign's donations. -/
  raised_sum : ∀ i, (w.manager.campaigns i).id ≠ 0 →
    (w.manager.campaigns i).totalRaised = campaignSum w.manager i
  /-- Every donation record points at an existing campaign. -/
  don_exists : ∀ d ∈ w.manager.allDonations, (w.manager.campaigns d.campaignId).id ≠ 0
  /-- The contract balance is donations received minus expenses logged. -/
  balance_eq : w.manager.balance + w.manager.totalExpensesLogged =
    w.manager.totalDonationsReceived
  /-- Token ids not yet allocated do not exist. -/
  token_fresh : ∀ t, w.nft.nextTokenId ≤ t → w.nft.owners t = 0
  /-- Token id 0 never exists (ids start at 1). -/
  token_zero : w.nft.owners 0 = 0
  /-- The token counter starts at 1 and never returns below it. -/
  token_pos : 1 ≤ w.nft.nextTokenId
  /-- Only minted tokens can carry a set used-flag. -/
  used_minted : ∀ t, w.voting.tokenUsed t = true → w.nft.owners t ≠ 0
  /-- C2's tally equation: each campaign's tally counts its used
  certificates. -/
  votes_count : ∀ c, w.voting.campaignVotes c = usedVoteCount w c

theorem inv_init (mOwner nOwner vOwner mAddr : Nat) :
    WorldInv (initWorld mOwner nOwner vOwner mAddr) := by
  constructor <;>
    simp [initWorld, campaignSum, usedVoteCount, zeroCampaign]

theorem inv_setNFTContract {w w' : World} {sender addr : Nat}
    (hI : WorldInv w) (h : step (.setNFTContract sender addr) w = .ok w') :
    WorldInv w' := by
  simp only [step, setNFTContract] at h
  split at h
  · simp [Except.map] at h
  · split at h
    · simp [Except.map] at h
    · simp only [Except.map] at h
      injection h with h
      subst h
      exact ⟨hI.camp_fresh, hI.camp_id, hI.raised_sum, hI.don_exists, hI.balance_eq,
        hI.token_fresh, hI.token_zero, hI.token_pos, hI.used_minted, hI.votes_count⟩

theorem inv_setDonationManager {w w' : World} {sender addr : Nat}
    (hI : WorldInv w) (h : step (.setDonationManager sender addr) w = .ok w') :
    WorldInv w' := by
  simp only [step, setDonationManager] at h
  split at h
  · simp [Except.map] at h
  · split at h
    · simp [Except.map] at h
    · simp only [Except.map] at h
      injection h with h
      subst h
      exact ⟨hI.camp_fresh, hI.camp_id, hI.raised_sum, hI.don_exists, hI.balance_eq,
        hI.token_fresh, hI.token_zero, hI.token_pos, hI.used_minted, hI.votes_count⟩

theorem inv_withdrawWithLog {w w' : World} {sender recipient : Nat}
    {description : String} {amount : Nat} {campaignId now bh : Nat}
    (hI : WorldInv w)
    (h : step (.withdrawWithLog sender description recipient amount campaignId now bh) w
      = .ok w') : WorldInv w' := by
  simp only [step, withdrawWithLog] at h
  split at h
  · simp [Except.map] at h
  split at h
  · simp [Except.map] at h
  split at h
  · simp [Except.map] at h
  split at h
  · simp [Except.map] at h
  split at h
  · simp [Except.map] at h
  rename_i hbal
  simp only [Except.map] at h
  injection h with h
  subst h
  refine ⟨hI.camp_fresh, hI.camp_id, hI.raised_sum, hI.don_exists, ?_,
    hI.token_fresh, hI.token_zero, hI.token_pos, hI.used_minted, hI.votes_count⟩
  have := hI.balance_eq
  dsimp only [transferOut, withdrawLogged]
  omega

theorem inv_updateCampaignStatus {w w' : World} {sender : Nat}
    {campaignId : Nat} {isActive : Bool}
    (hI : WorldInv w)
    (h : step (.updateCampaignStatus sender campaignId isActive) w = .ok w') :
    WorldInv w' := by
  simp only [step, updateCampaignStatus] at h
  split at h
  · simp [Except.map] at h
  split at h
  · simp [Except.map] at h
  rename_i hex
  simp only [Except.map] at h
  injection h with h
  subst h
  have hlt : campaignId < w.manager.nextCampaignId := by
    by_contra hge
    exact hex (by rw [hI.camp_fresh campaignId (by omega)]; rfl)
  refine ⟨?_, ?_, ?_, ?_, hI.balance_eq, hI.token_fresh, hI.token_zero,
    hI.token_pos, hI.used_minted, hI.votes_count⟩
  · intro i hi
    dsimp only at hi ⊢
    rw [if_neg (by omega)]
    exact hI.camp_fresh i hi
  · intro i hi
    dsimp only at hi ⊢
    by_cases hic : i = campaignId
    · subst hic
      rw [if_pos rfl] at hi ⊢
      exact hI.camp_id i hi
    · rw [if_neg hic] at hi ⊢
      exact hI.camp_id i hi
  · intro i hi
    dsimp only [campaignSum] at hi ⊢
    have hr := hI.raised_sum i
    dsimp only [campaignSum] at hr
    by_cases hic : i = campaignId
    · subst hic
      rw [if_pos rfl] at hi ⊢
      exact hr hi
    · rw [if_neg hic] at hi ⊢
      exact hr hi
  · intro d hd
    dsimp only at hd ⊢
    by_cases hic : d.campaignId = campaignId
    · rw [hic, if_pos rfl]
      have := hI.don_exists d hd
      rw [hic] at this
      exact this
    · rw [if_neg hic]
      exact hI.don_exists d hd

theorem inv_transferCert {w w' : World} {sender dest : Nat} {tokenId : Nat}
    (hI : WorldInv w) (h : step (.transferCert sender dest tokenId) w = .ok w') :
    WorldInv w' := by
  simp only [step, transferCert] at h
  split at h
  · simp [Except.map] at h
  split at h
  · simp [Except.map] at h
  split at h
  · simp [Except.map] at h
  rename_i hex _ hdest
  simp only [Except.map] at h
  injection h with h
  subst h
  have htlt : tokenId < w.nft.nextTokenId := by
    by_contra hge
    exact hex (hI.token_fresh tokenId (by omega))
  refine ⟨hI.camp_fresh, hI.camp_id, hI.raised_sum, hI.don_exists, hI.balance_eq,
    ?_, ?_, hI.token_pos, ?_, hI.votes_count⟩
  · intro t ht
    dsimp only at ht ⊢
    rw [if_neg (by omega)]
    exact hI.token_fresh t ht
  · dsimp only
    have : tokenId ≠ 0 := fun h0 => hex (h0 ▸ hI.token_zero)
    rw [if_neg (by omega)]
    exact hI.token_zero
  · intro t ht
    dsimp only at ht ⊢
    by_cases htc : t = tokenId
    · rw [if_pos htc]; exact hdest
    · rw [if_neg htc]; exact hI.used_minted t ht

theorem inv_createCampaign {w w' : World} {sender : Nat}
    {title description imageCID : String} {targetAmount deadline now : Nat}
    (hI : WorldInv w)
    (h : step (.createCampaign sender title description imageCID targetAmount deadline now)
      w = .ok w') : WorldInv w' := by
  simp only [step, createCampaign] at h
  split at h
  · simp [Except.map] at h
  split at h
  · simp [Except.map] at h
  split at h
  · simp [Except.map] at h
  split at h
  · simp [Except.map] at h
  split at h
  · simp [Except.map] at h
  split at h
  · simp [Except.map] at h
  simp only [Except.map] at h
  injection h with h
  subst h
  have hnone : ∀ d ∈ w.manager.allDonations, d.campaignId ≠ w.manager.nextCampaignId := by
    intro d hd heq
    have hz := hI.camp_fresh w.manager.nextCampaignId (le_refl _)
    have := hI.don_exists d hd
    rw [heq, hz] at this
    exact this rfl
  refine ⟨?_, ?_, ?_, ?_, hI.balance_eq, hI.token_fresh, hI.token_zero,
    hI.token_pos, hI.used_minted, hI.votes_count⟩
  · intro i hi
    dsimp only at hi ⊢
    rw [if_neg (by omega)]
    exact hI.camp_fresh i (by omega)
  · intro i hi
    dsimp only at hi ⊢
    by_cases hic : i = w.manager.nextCampaignId
    · subst hic
      rw [if_pos rfl]
    · rw [if_neg hic] at hi ⊢
      exact hI.camp_id i hi
  · intro i hi
    dsimp only [campaignSum] at hi ⊢
    by_cases hic : i = w.manager.nextCampaignId
    · subst hic
      rw [if_pos rfl]
      dsimp only
      have hfil : w.manager.allDonations.filter
          (fun d => d.campaignId == w.manager.nextCampaignId) = [] := by
        rw [List.filter_eq_nil_iff]
        intro d hd
        simpa using hnone d hd
      rw [hfil]
      rfl
    · rw [if_neg hic] at hi ⊢
      have hr := hI.raised_sum i hi
      dsimp only [campaignSum] at hr
      exact hr
  · intro d hd
    dsimp only at hd ⊢
    have hne := hnone d hd
    rw [if_neg hne]
    exact hI.don_exists d hd

theorem inv_vote {w w' : World} {sender : Nat} {campaignId tokenId : Nat}
    (hI : WorldInv w) (h : step (.vote sender campaignId tokenId) w = .ok w') :
    WorldInv w' := by
  simp only [step, vote] at h
  split at h
  · simp [Except.map] at h
  split at h
  · simp [Except.map] at h
  split at h
  · simp [Except.map] at h
  split at h
  · simp [Except.map] at h
  rename_i hex hown hused hmatch
  simp only [Except.map] at h
  injection h with h
  subst h
  have htne : tokenId ≠ 0 := fun h0 => hex (h0 ▸ hI.token_zero)
  have htlt : tokenId < w.nft.nextTokenId := by
    by_contra hge
    exact hex (hI.token_fresh tokenId (by omega))
  have hmem : tokenId ∈ List.range' 1 (w.nft.nextTokenId - 1) := by
    rw [List.mem_range'_1]
    have := hI.token_pos
    omega
  have hcid : (w.nft.donationDetails tokenId).campaignId = campaignId := by
    by_contra hc
    exact hmatch hc
  refine ⟨hI.camp_fresh, hI.camp_id, hI.raised_sum, hI.don_exists, hI.balance_eq,
    hI.token_fresh, hI.token_zero, hI.token_pos, ?_, ?_⟩
  · intro t ht
    dsimp only at ht
    by_cases htc : t = tokenId
    · subst htc; exact hex
    · rw [if_neg htc] at ht
      exact hI.used_minted t ht
  · intro c
    rw [Bool.not_eq_true] at hused
    dsimp only
    by_cases hc : c = campaignId
    · subst hc
      rw [if_pos rfl, hI.votes_count c]
      dsimp only [usedVoteCount]
      refine (countP_update_point (List.range' 1 (w.nft.nextTokenId - 1)) tokenId
        (fun t => w.voting.tokenUsed t && ((w.nft.donationDetails t).campaignId == c))
        (fun t => (if t = tokenId then true else w.voting.tokenUsed t) &&
          ((w.nft.donationDetails t).campaignId == c))
        (List.nodup_range' 1 (w.nft.nextTokenId - 1)) hmem ?_ ?_ ?_).symm
      · simp [hused]
      · simp [hcid]
      · intro x _ hxne
        simp [if_neg hxne]
    · rw [if_neg hc, hI.votes_count c]
      dsimp only [usedVoteCount]
      refine countP_congr_on (List.range' 1 (w.nft.nextTokenId - 1))
        (fun t => w.voting.tokenUsed t && ((w.nft.donationDetails t).campaignId == c))
        (fun t => (if t = tokenId then true else w.voting.tokenUsed t) &&
          ((w.nft.donationDetails t).campaignId == c)) ?_
      intro x _
      by_cases hxt : x = tokenId
      · subst hxt
        have hne : ((w.nft.donationDetails x).campaignId == c) = false := by
          rw [hcid]
          exact beq_eq_false_iff_ne.mpr fun hcc => hc hcc.symm
        simp [hused, hne]
      · simp [if_neg hxt]

theorem sum_filter_append (l : List Donation) (d : Donation) (i : Nat) :
    (((l ++ [d]).filter fun x => x.campaignId == i).map (·.amount)).sum =
      ((l.filter fun x => x.campaignId == i).map (·.amount)).sum +
        (if d.campaignId = i then d.amount else 0) := by
  rw [List.filter_append, List.map_append, List.sum_append]
  by_cases h : d.campaignId = i <;> simp [h]

theorem inv_donate {w w' : World} {sender value campaignId now bh entropy : Nat}
    (hI : WorldInv w)
    (h : step (.donate sender value campaignId now bh entropy) w = .ok w') :
    WorldInv w' := by
  simp only [step, donate] at h
  split at h
  · simp at h
  split at h
  · simp at h
  split at h
  · simp at h
  split at h
  · simp at h
  rename_i hv hex hact hdl
  split at h
  · -- qualifying donation: the registry mint runs
    rename_i hmint
    split at h
    · simp at h
    rename_i n' tid heq
    simp only [mintCertificate] at heq
    split at heq
    · simp at heq
    split at heq
    · simp at heq
    split at heq
    · simp at heq
    rename_i hauth hdonor howner
    rw [Except.ok.injEq, Prod.mk.injEq] at heq
    obtain ⟨hn, -⟩ := heq
    subst hn
    injection h with h
    subst h
    have hclt : campaignId < w.manager.nextCampaignId := by
      by_contra hge
      exact hex (by rw [hI.camp_fresh campaignId (by omega)]; rfl)
    have hset : ∀ d : Donation,
        (w.manager.allDonations ++ [d]).set w.manager.allDonations.length
          { d with nftMinted := true } = w.manager.allDonations ++ [{ d with nftMinted := true }] :=
      fun d => set_append_length w.manager.allDonations d { d with nftMinted := true }
    refine ⟨?_, ?_, ?_, ?_, ?_, ?_, ?_, ?_, ?_, ?_⟩
    · intro i hi
      dsimp only at hi ⊢
      rw [if_neg (by omega)]
      exact hI.camp_fresh i (by omega)
    · intro i hi
      dsimp only at hi ⊢
      by_cases hic : i = campaignId
      · subst hic
        rw [if_pos rfl] at hi ⊢
        exact hI.camp_id i hi
      · rw [if_neg hic] at hi ⊢
        exact hI.camp_id i hi
    · intro i hi
      dsimp only [campaignSum] at hi ⊢
      rw [hset]
      rw [sum_filter_append]
      dsimp only
      by_cases hic : i = campaignId
      · subst hic
        rw [if_pos rfl] at hi ⊢
        have hr := hI.raised_sum i (by exact hi)
        dsimp only [campaignSum] at hr
        rw [hr]
        simp
      · rw [if_neg hic] at hi ⊢
        rw [if_neg fun hh => hic hh.symm]
        have hr := hI.raised_sum i hi
        dsimp only [campaignSum] at hr
        rw [hr]
        simp
    · intro d hd
      dsimp only at hd ⊢
      rw [hset] at hd
      rcases List.mem_append.mp hd with hold | hnew
      · by_cases hic : d.campaignId = campaignId
        · rw [hic, if_pos rfl]
          have := hI.don_exists d hold
          rw [hic] at this
          exact this
        · rw [if_neg hic]
          exact hI.don_exists d hold
      · have hd' : d.campaignId = campaignId := by
          rcases List.mem_singleton.mp hnew with rfl
          rfl
        rw [hd', if_pos rfl]
        exact hd' ▸ hex
    · have := hI.balance_eq
      dsimp only
      omega
    · intro t ht
      dsimp only at ht ⊢
      rw [if_neg (by omega)]
      exact hI.token_fresh t (by omega)
    · dsimp only
      have := hI.token_pos
      rw [if_neg (by omega)]
      exact hI.token_zero
    · dsimp only
      omega
    · intro t ht
      dsimp only at ht ⊢
      by_cases htc : t = w.nft.nextTokenId
      · rw [if_pos htc]
        exact hdonor
      · rw [if_neg htc]
        exact hI.used_minted t ht
    · intro c
      dsimp only [usedVoteCount] at *
      have hnm : w.voting.tokenUsed w.nft.nextTokenId = false := by
        by_contra hu
        rw [Bool.not_eq_false] at hu
        exact hI.used_minted _ hu (hI.token_fresh _ (le_refl _))
      have hrange : List.range' 1 (w.nft.nextTokenId + 1 - 1) =
          List.range' 1 (w.nft.nextTokenId - 1) ++ [w.nft.nextTokenId] := by
        have hp := hI.token_pos
        have h2 : w.nft.nextTokenId + 1 - 1 = (w.nft.nextTokenId - 1) + 1 := by omega
        rw [h2, List.range'_concat]
        congr 1
        simp
        omega
      rw [hrange, List.countP_append]
      have hlast : List.countP
          (fun t => w.voting.tokenUsed t &&
            ((if t = w.nft.nextTokenId then
                { donor := sender, amount := value, campaignId := campaignId
                  campaignTitle := (w.manager.campaigns campaignId).title
                  timestamp := now, txHash := bh
                  tier := determineTier (generateRandom entropy) value }
              else w.nft.donationDetails t).campaignId == c))
          [w.nft.nextTokenId] = 0 := by
        simp [hnm]
      rw [hlast]
      have hagree := countP_congr_on (List.range' 1 (w.nft.nextTokenId - 1))
        (fun t => w.voting.tokenUsed t && ((w.nft.donationDetails t).campaignId == c))
        (fun t => w.voting.tokenUsed t &&
          ((if t = w.nft.nextTokenId then
              { donor := sender, amount := value, campaignId := campaignId
                campaignTitle := (w.manager.campaigns campaignId).title
                timestamp := now, txHash := bh
                tier := determineTier (generateRandom entropy) value }
            else w.nft.donationDetails t).campaignId == c))
        (by
          intro x hx
          rw [List.mem_range'_1] at hx
          have hxne : x ≠ w.nft.nextTokenId := by omega
          simp [hxne])
      rw [← hagree]
      have hvc := hI.votes_count c
      dsimp only [usedVoteCount] at hvc
      rw [hvc]
      simp
  · -- non-qualifying donation: no mint
    injection h with h
    subst h
    have hclt : campaignId < w.manager.nextCampaignId := by
      by_contra hge
      exact hex (by rw [hI.camp_fresh campaignId (by omega)]; rfl)
    refine ⟨?_, ?_, ?_, ?_, ?_, hI.token_fresh, hI.token_zero, hI.token_pos,
      hI.used_minted, hI.votes_count⟩
    · intro i hi
      dsimp only at hi ⊢
      rw [if_neg (by omega)]
      exact hI.camp_fresh i (by omega)
    · intro i hi
      dsimp only at hi ⊢
      by_cases hic : i = campaignId
      · subst hic
        rw [if_pos rfl] at hi ⊢
        exact hI.camp_id i hi
      · rw [if_neg hic] at hi ⊢
        exact hI.camp_id i hi
    · intro i hi
      dsimp only [campaignSum] at hi ⊢
      rw [sum_filter_append]
      dsimp only
      by_cases hic : i = campaignId
      · subst hic
        rw [if_pos rfl] at hi ⊢
        have hr := hI.raised_sum i hi
        dsimp only [campaignSum] at hr
        rw [hr]
        simp
      · rw [if_neg hic] at hi ⊢
        rw [if_neg fun hh => hic hh.symm]
        have hr := hI.raised_sum i hi
        dsimp only [campaignSum] at hr
        rw [hr]
        simp
    · intro d hd
      dsimp only at hd ⊢
      rcases List.mem_append.mp hd with hold | hnew
      · by_cases hic : d.campaignId = campaignId
        · rw [hic, if_pos rfl]
          have := hI.don_exists d hold
          rw [hic] at this
          exact this
        · rw [if_neg hic]
          exact hI.don_exists d hold
      · have hd' : d.campaignId = campaignId := by
          rcases List.mem_singleton.mp hnew with rfl
          rfl
        rw [hd', if_pos rfl]
        exact hd' ▸ hex
    · have := hI.balance_eq
      dsimp only
      omega

/-- Every successful external call preserves the global invariant. -/
theorem inv_step {w w' : World} {op : Op}
    (hI : WorldInv w) (h : step op w = .ok w') : WorldInv w' := by
  cases op with
  | createCampaign sender title description imageCID targetAmount deadline now =>
    exact inv_createCampaign hI h
  | updateCampaignStatus sender campaignId isActive =>
    exact inv_updateCampaignStatus hI h
  | donate sender value campaignId now bh entropy =>
    exact inv_donate hI h
  | withdrawWithLog sender description recipient amount campaignId now bh =>
    exact inv_withdrawWithLog hI h
  | setNFTContract sender addr =>
    exact inv_setNFTContract hI h
  | setDonationManager sender addr =>
    exact inv_setDonationManager hI h
  | transferCert sender dest tokenId =>
    exact inv_transferCert hI h
  | vote sender campaignId tokenId =>
    exact inv_vote hI h

/-- Every reachable world satisfies the invariant. -/
theorem reachable_inv {w : World} (h : Reachable w) : WorldInv w := by
  induction h with
  | init mOwner nOwner vOwner mAddr =>
    exact inv_init mOwner nOwner vOwner mAddr
  | step _ hstep ih =>
    exact inv_step ih hstep

theorem map_ok {α β γ : Type} {g : α → β} {r : Except γ α} {b : β}
    (h : r.map g = .ok b) : ∃ a, r = .ok a ∧ b = g a := by
  cases r with
  | error e => simp [Except.map] at h
  | ok a =>
    refine ⟨a, rfl, ?_⟩
    simp only [Except.map] at h
    exact (Except.ok.injEq _ _ ▸ h).symm

/-- How a single successful operation moves each campaign's `totalRaised`:
by exactly the donated amount for a `donate` aimed at it, not at all
otherwise. -/
theorem step_totalRaised {w w' : World} {op : Op} (hI : WorldInv w)
    (h : step op w = .ok w') (i : Nat) :
    (w'.manager.campaigns i).totalRaised =
      (w.manager.campaigns i).totalRaised + donatedTo op i := by
  cases op with
  | createCampaign sender title description imageCID targetAmount deadline now =>
    simp only [step, createCampaign] at h
    split at h
    · simp [Except.map] at h
    split at h
    · simp [Except.map] at h
    split at h
    · simp [Except.map] at h
    split at h
    · simp [Except.map] at h
    split at h
    · simp [Except.map] at h
    split at h
    · simp [Except.map] at h
    simp only [Except.map] at h
    injection h with h
    subst h
    dsimp only [donatedTo]
    by_cases hic : i = w.manager.nextCampaignId
    · subst hic
      rw [if_pos rfl, hI.camp_fresh _ (le_refl _)]
      simp [zeroCampaign]
    · rw [if_neg hic]
      simp
  | updateCampaignStatus sender campaignId isActive =>
    simp only [step, updateCampaignStatus] at h
    split at h
    · simp [Except.map] at h
    split at h
    · simp [Except.map] at h
    simp only [Except.map] at h
    injection h with h
    subst h
    dsimp only [donatedTo]
    by_cases hic : i = campaignId
    · subst hic
      rw [if_pos rfl]
      simp
    · rw [if_neg hic]
      simp
  | donate sender value campaignId now bh entropy =>
    simp only [step, donate] at h
    split at h
    · simp at h
    split at h
    · simp at h
    split at h
    · simp at h
    split at h
    · simp at h
    dsimp only [donatedTo]
    split at h
    · split at h
      · simp at h
      injection h with h
      subst h
      dsimp only
      by_cases hic : i = campaignId
      · subst hic
        rw [if_pos rfl, if_pos rfl]
      · rw [if_neg hic, if_neg fun hh => hic hh.symm]
        simp
    · injection h with h
      subst h
      dsimp only
      by_cases hic : i = campaignId
      · subst hic
        rw [if_pos rfl, if_pos rfl]
      · rw [if_neg hic, if_neg fun hh => hic hh.symm]
        simp
  | withdrawWithLog sender description recipient amount campaignId now bh =>
    obtain ⟨m', hm, rfl⟩ := map_ok h
    simp only [withdrawWithLog] at hm
    split at hm
    · simp at hm
    split at hm
    · simp at hm
    split at hm
    · simp at hm
    split at hm
    · simp at hm
    split at hm
    · simp at hm
    injection hm with hm
    subst hm
    simp [donatedTo, transferOut, withdrawLogged]
  | setNFTContract sender addr =>
    obtain ⟨m', hm, rfl⟩ := map_ok h
    simp only [setNFTContract] at hm
    split at hm
    · simp at hm
    split at hm
    · simp at hm
    injection hm with hm
    subst hm
    simp [donatedTo]
  | setDonationManager sender addr =>
    obtain ⟨n', hn, rfl⟩ := map_ok h
    simp [donatedTo]
  | transferCert sender dest tokenId =>
    obtain ⟨n', hn, rfl⟩ := map_ok h
    simp [donatedTo]
  | vote sender campaignId tokenId =>
    obtain ⟨v', hv, rfl⟩ := map_ok h
    simp [donatedTo]

/-! ## Claims -/

/-- **C1**: In every reachable state of the Campaign Ledger, every existing
campaign's `totalRaised` equals the sum of the amounts of all `Donation`
records whose `campaignId` equals the campaign's id; and across any
successful operation `totalRaised` is only ever incremented, exactly by
accepted donation amounts (`donatedTo`: the attached value for a `donate`
aimed at the campaign, zero otherwise). -/
theorem C1_totalRaised_eq_donation_sum (w : World) (hw : Reachable w) :
    (∀ i, (w.manager.campaigns i).id ≠ 0 →
      (w.manager.campaigns i).totalRaised =
        campaignSum w.manager (w.manager.campaigns i).id) ∧
    (∀ op w', step op w = .ok w' → ∀ i,
      (w'.manager.campaigns i).totalRaised =
        (w.manager.campaigns i).totalRaised + donatedTo op i) := by
  have hI := reachable_inv hw
  constructor
  · intro i hi
    rw [hI.camp_id i hi]
    exact hI.raised_sum i hi
  · intro op w' h i
    exact step_totalRaised hI h i

/-- Witness for C1 at the freshly deployed system. -/
theorem C1_totalRaised_eq_donation_sum_witness :
    (∀ i, ((initWorld 1 2 3 4).manager.campaigns i).id ≠ 0 →
      ((initWorld 1 2 3 4).manager.campaigns i).totalRaised =
        campaignSum (initWorld 1 2 3 4).manager
          ((initWorld 1 2 3 4).manager.campaigns i).id) ∧
    (∀ op w', step op (initWorld 1 2 3 4) = .ok w' → ∀ i,
      (w'.manager.campaigns i).totalRaised =
        ((initWorld 1 2 3 4).manager.campaigns i).totalRaised + donatedTo op i) :=
  C1_totalRaised_eq_donation_sum (initWorld 1 2 3 4) (Reachable.init 1 2 3 4)

/-- **C4**: For every mint, with the pseudo-random draw `r ∈ [0,10000)`:
a draw below 500 gives tier Special regardless of the amount; otherwise
the tier is Gold iff `amount ≥ 0.1 ether`, Silver iff
`0.05 ether ≤ amount < 0.1 ether`, Bronze iff `amount < 0.05 ether`, and
for non-Special draws the tier is a monotone function of the amount. -/
theorem C4_tier_determination (r a : Nat) (hr : r < 10000) :
    (r < SPECIAL_CHANCE → determineTier r a = Tier.Special) ∧
    (SPECIAL_CHANCE ≤ r →
      (determineTier r a = Tier.Gold ↔ GOLD_THRESHOLD ≤ a) ∧
      (determineTier r a = Tier.Silver ↔ SILVER_THRESHOLD ≤ a ∧ a < GOLD_THRESHOLD) ∧
      (determineTier r a = Tier.Bronze ↔ a < SILVER_THRESHOLD) ∧
      (∀ b, a ≤ b → tierRank (determineTier r a) ≤ tierRank (determineTier r b))) := by
  constructor
  · intro hlt
    simp [determineTier, hlt]
  · intro hge
    have hnot : ¬ r < SPECIAL_CHANCE := by omega
    have hGS : SILVER_THRESHOLD < GOLD_THRESHOLD := by
      simp [SILVER_THRESHOLD, GOLD_THRESHOLD]
    refine ⟨?_, ?_, ?_, ?_⟩
    · unfold determineTier
      rw [if_neg hnot]
      split
      · simp_all
      split
      · rename_i h1 h2
        constructor
        · intro hcon
          cases hcon
        · omega
      · rename_i h1 h2
        constructor
        · intro hcon
          cases hcon
        · omega
    · unfold determineTier
      rw [if_neg hnot]
      split
      · rename_i h1
        constructor
        · intro hcon
          cases hcon
        · omega
      split
      · rename_i h1 h2
        constructor
        · intro _
          omega
        · intro _
          rfl
      · rename_i h1 h2
        constructor
        · intro hcon
          cases hcon
        · omega
    · unfold determineTier
      rw [if_neg hnot]
      split
      · rename_i h1
        constructor
        · intro hcon
          cases hcon
        · omega
      split
      · rename_i h1 h2
        constructor
        · intro hcon
          cases hcon
        · omega
      · rename_i h1 h2
        simp
        omega
    · intro b hab
      unfold determineTier
      rw [if_neg hnot, if_neg hnot]
      split
      · rename_i h1
        rw [if_pos (by omega : GOLD_THRESHOLD ≤ b)]
      · split
        · rename_i h1 h2
          split
          · simp [tierRank]
          split
          · simp [tierRank]
          · rename_i h3 h4
            omega
        · split
          · simp [tierRank]
          split
          · simp [tierRank]
          · simp [tierRank]

/-- A successful `donate` never touches the Ballot Registry's storage. -/
theorem donate_voting {w w' : World} {sender value campaignId now bh entropy : Nat}
    (h : donate sender value campaignId now bh entropy w = .ok w') :
    w'.voting = w.voting := by
  simp only [donate] at h
  split at h
  · simp at h
  split at h
  · simp at h
  split at h
  · simp at h
  split at h
  · simp at h
  split at h
  · split at h
    · simp at h
    injection h with h
    subst h
    rfl
  · injection h with h
    subst h
    rfl

/-- No operation ever clears a used-flag: `tokenUsed` is monotone along
every successful step. -/
theorem step_tokenUsed_mono {w w' : World} {op : Op}
    (h : step op w = .ok w') (t : Nat) (ht : w.voting.tokenUsed t = true) :
    w'.voting.tokenUsed t = true := by
  cases op with
  | createCampaign sender title description imageCID targetAmount deadline now =>
    obtain ⟨a, _, rfl⟩ := map_ok h
    exact ht
  | updateCampaignStatus sender campaignId isActive =>
    obtain ⟨a, _, rfl⟩ := map_ok h
    exact ht
  | donate sender value campaignId now bh entropy =>
    have hv : w'.voting = w.voting := donate_voting h
    rw [hv]
    exact ht
  | withdrawWithLog sender description recipient amount campaignId now bh =>
    obtain ⟨a, _, rfl⟩ := map_ok h
    exact ht
  | setNFTContract sender addr =>
    obtain ⟨a, _, rfl⟩ := map_ok h
    exact ht
  | setDonationManager sender addr =>
    obtain ⟨a, _, rfl⟩ := map_ok h
    exact ht
  | transferCert sender dest tokenId =>
    obtain ⟨a, _, rfl⟩ := map_ok h
    exact ht
  | vote sender campaignId tokenId =>
    obtain ⟨v', hv, rfl⟩ := map_ok h
    simp only [vote] at hv
    split at hv
    · simp at hv
    split at hv
    · simp at hv
    split at hv
    · simp at hv
    split at hv
    · simp at hv
    injection hv with hv
    subst hv
    dsimp only
    by_cases htc : t = tokenId
    · rw [if_pos htc]
    · rw [if_neg htc]
      exact ht

/-- **C2**: In every reachable state of the combined Ballot/Certificate
system, no operation ever moves a certificate's used-flag from Used back
to Unused, and `getVotes c` equals the number of minted certificates with
used-flag true whose stored campaign id is `c`. -/
theorem C2_used_flag_and_tally (w : World) (hw : Reachable w) :
    (∀ op w', step op w = .ok w' →
      ∀ t, w.voting.tokenUsed t = true → w'.voting.tokenUsed t = true) ∧
    (∀ c, getVotes c w.voting = usedVoteCount w c) :=
  ⟨fun _ _ h t ht => step_tokenUsed_mono h t ht,
   fun c => (reachable_inv hw).votes_count c⟩

/-- Witness for C2 at the freshly deployed system. -/
theorem C2_used_flag_and_tally_witness :
    (∀ op w', step op (initWorld 1 2 3 4) = .ok w' →
      ∀ t, (initWorld 1 2 3 4).voting.tokenUsed t = true →
        w'.voting.tokenUsed t = true) ∧
    (∀ c, getVotes c (initWorld 1 2 3 4).voting =
      usedVoteCount (initWorld 1 2 3 4) c) :=
  C2_used_flag_and_tally (initWorld 1 2 3 4) (Reachable.init 1 2 3 4)

/-- **C3 (counterexample)**: the claim "if `amount` exceeds the ledger
balance the call fails *with `InsufficientBalance`*" is false as stated:
at the freshly deployed system (balance 0), a call with an empty
description and `amount = 7 > 0` fails with `InvalidInput` — the empty
description is rejected before the balance is consulted. -/
theorem C3_error_kind_counterexample :
    Reachable (initWorld 1 2 3 4) ∧
    7 > (initWorld 1 2 3 4).manager.totalDonationsReceived -
      (initWorld 1 2 3 4).manager.totalExpensesLogged ∧
    step (.withdrawWithLog 1 "" 5 7 0 0 0) (initWorld 1 2 3 4) =
      .error .InvalidInput ∧
    DErr.InvalidInput ≠ DErr.InsufficientBalance :=
  ⟨Reachable.init 1 2 3 4, by decide, rfl, by decide⟩

/-- **C3 (amended)**: In every reachable state, a `withdrawWithLog` whose
`amount` exceeds the ledger balance (donations received minus withdrawals
logged) never succeeds — it reverts with no state change — and when the
caller is the administrator and the argument validations pass (nonempty
description, non-null recipient), the failure is specifically
`InsufficientBalance`. -/
theorem C3_withdraw_never_exceeds_balance (w : World) (hw : Reachable w)
    (sender : Nat) (description : String)
    (recipient amount campaignId now bh : Nat)
    (hgt : amount > w.manager.totalDonationsReceived -
      w.manager.totalExpensesLogged) :
    (∀ w', step (.withdrawWithLog sender description recipient amount
      campaignId now bh) w ≠ .ok w') ∧
    (sender = w.manager.owner → description.length ≠ 0 → recipient ≠ 0 →
      step (.withdrawWithLog sender description recipient amount
        campaignId now bh) w = .error .InsufficientBalance) := by
  have hI := reachable_inv hw
  have hbal : w.manager.balance < amount := by
    have := hI.balance_eq
    omega
  constructor
  · intro w' hok
    simp only [step, withdrawWithLog] at hok
    by_cases h1 : sender ≠ w.manager.owner
    · rw [if_pos h1] at hok
      exact absurd hok (by simp [Except.map])
    rw [if_neg h1] at hok
    by_cases h2 : description.length = 0
    · rw [if_pos h2] at hok
      exact absurd hok (by simp [Except.map])
    rw [if_neg h2] at hok
    by_cases h3 : recipient = 0
    · rw [if_pos h3] at hok
      exact absurd hok (by simp [Except.map])
    rw [if_neg h3] at hok
    by_cases h4 : amount = 0
    · rw [if_pos h4] at hok
      exact absurd hok (by simp [Except.map])
    rw [if_neg h4, if_pos hbal] at hok
    exact absurd hok (by simp [Except.map])
  · intro hs hd hrcp
    simp only [step, withdrawWithLog]
    rw [if_neg (by simp [hs]), if_neg hd, if_neg hrcp,
      if_neg (by omega : ¬ amount = 0), if_pos hbal]
    rfl

/-- Witness for C3 (amended) at the freshly deployed system. -/
theorem C3_withdraw_never_exceeds_balance_witness :
    7 > (initWorld 1 2 3 4).manager.totalDonationsReceived -
      (initWorld 1 2 3 4).manager.totalExpensesLogged ∧
    ((∀ w', step (.withdrawWithLog 1 "supplies" 5 7 0 0 0) (initWorld 1 2 3 4)
        ≠ .ok w') ∧
     (1 = (initWorld 1 2 3 4).manager.owner → "supplies".length ≠ 0 → 5 ≠ 0 →
      step (.withdrawWithLog 1 "supplies" 5 7 0 0 0) (initWorld 1 2 3 4) =
        .error .InsufficientBalance)) :=
  ⟨by decide,
   C3_withdraw_never_exceeds_balance (initWorld 1 2 3 4)
     (Reachable.init 1 2 3 4) 1 "supplies" 5 7 0 0 0 (by decide)⟩

/-- A reachable state holding one campaign: id 1, target 100, active,
created at time 10 with deadline 20 (so expired at any `now > 20`). -/
def expiredWorld : World :=
  (step (.createCampaign 1 "Clean Water" "desc" "cid" 100 20 10)
    (initWorld 1 2 3 4)).toOption.getD (initWorld 1 2 3 4)

/-- **C6 (counterexample)**: the claim "every donate call targeting an
expired campaign fails *with `DeadlinePassed`*" is false as stated: a
zero-amount donate to the expired (but active) campaign fails with
`InvalidInput` — the zero-amount check runs before the deadline check. -/
theorem C6_error_kind_counterexample :
    Reachable expiredWorld ∧
    (expiredWorld.manager.campaigns 1).id ≠ 0 ∧
    (expiredWorld.manager.campaigns 1).deadline < 30 ∧
    (expiredWorld.manager.campaigns 1).isActive = true ∧
    step (.donate 5 0 1 30 0 0) expiredWorld = .error .InvalidInput ∧
    DErr.InvalidInput ≠ DErr.DeadlinePassed := by
  have hstep : step (.createCampaign 1 "Clean Water" "desc" "cid" 100 20 10)
      (initWorld 1 2 3 4) = .ok expiredWorld := rfl
  exact ⟨Reachable.step (Reachable.init 1 2 3 4) hstep, by decide, by decide,
    by decide, rfl, by decide⟩

/-- **C6 (amended)**: a `donate` aimed at an existing campaign whose
deadline is strictly before the current time never succeeds; when the
attached amount is positive and the campaign's active flag is true, the
failure is specifically `DeadlinePassed` (a zero amount fails earlier
with `InvalidInput`, an inactive campaign with `CampaignInactive`). -/
theorem C6_expired_campaign_donate (w : World)
    (sender value campaignId now bh entropy : Nat)
    (hex : (w.manager.campaigns campaignId).id ≠ 0)
    (hdl : (w.manager.campaigns campaignId).deadline < now) :
    (∀ w', step (.donate sender value campaignId now bh entropy) w ≠ .ok w') ∧
    (value ≠ 0 → (w.manager.campaigns campaignId).isActive = true →
      step (.donate sender value campaignId now bh entropy) w =
        .error .DeadlinePassed) := by
  constructor
  · intro w' hok
    simp only [step, donate] at hok
    by_cases h1 : value = 0
    · rw [if_pos h1] at hok
      exact absurd hok (by simp)
    rw [if_neg h1, if_neg hex] at hok
    by_cases h3 : ¬ (w.manager.campaigns campaignId).isActive = true
    · rw [if_pos h3] at hok
      exact absurd hok (by simp)
    rw [if_neg h3,
      if_pos (by omega : ¬ now ≤ (w.manager.campaigns campaignId).deadline)] at hok
    exact absurd hok (by simp)
  · intro hv hact
    simp only [step, donate]
    rw [if_neg hv, if_neg hex, if_neg (by simp [hact]),
      if_pos (by omega : ¬ now ≤ (w.manager.campaigns campaignId).deadline)]

/-- Witness for C6 (amended) at the concrete expired campaign. -/
theorem C6_expired_campaign_donate_witness :
    (expiredWorld.manager.campaigns 1).id ≠ 0 ∧
    (expiredWorld.manager.campaigns 1).deadline < 30 ∧
    ((∀ w', step (.donate 5 7 1 30 0 0) expiredWorld ≠ .ok w') ∧
     (7 ≠ 0 → (expiredWorld.manager.campaigns 1).isActive = true →
      step (.donate 5 7 1 30 0 0) expiredWorld = .error .DeadlinePassed)) :=
  ⟨by decide, by decide,
   C6_expired_campaign_donate expiredWorld 5 7 1 30 0 0 (by decide) (by decide)⟩

/-- Witness for C4 at the concrete draw 700 and amount 0.05 ether. -/
theorem C4_tier_determination_witness :
    (700 < SPECIAL_CHANCE →
      determineTier 700 SILVER_THRESHOLD = Tier.Special) ∧
    (SPECIAL_CHANCE ≤ 700 →
      (determineTier 700 SILVER_THRESHOLD = Tier.Gold ↔
        GOLD_THRESHOLD ≤ SILVER_THRESHOLD) ∧
      (determineTier 700 SILVER_THRESHOLD = Tier.Silver ↔
        SILVER_THRESHOLD ≤ SILVER_THRESHOLD ∧ SILVER_THRESHOLD < GOLD_THRESHOLD) ∧
      (determineTier 700 SILVER_THRESHOLD = Tier.Bronze ↔
        SILVER_THRESHOLD < SILVER_THRESHOLD) ∧
      (∀ b, SILVER_THRESHOLD ≤ b →
        tierRank (determineTier 700 SILVER_THRESHOLD) ≤
          tierRank (determineTier 700 b))) :=
  C4_tier_determination 700 SILVER_THRESHOLD (by decide)

/-- **C7**: From any state in which `sender` owns certificate `tokenId`,
the certificate is unused, it was minted for `campaignId`, and the tally
is 0: the first `vote` succeeds, sets the used-flag and makes the tally 1,
and a second identical `vote` reverts with `AlreadyUsed` — a revert
carries no state, so the tally remains 1 and all other state is
unchanged (the first call already left manager and registry untouched). -/
theorem C7_double_vote (w : World) (sender campaignId tokenId : Nat)
    (hown : w.nft.owners tokenId = sender) (hsne : sender ≠ 0)
    (hused : w.voting.tokenUsed tokenId = false)
    (hmatch : (w.nft.donationDetails tokenId).campaignId = campaignId)
    (htally : getVotes campaignId w.voting = 0) :
    ∃ w', step (.vote sender campaignId tokenId) w = .ok w' ∧
      w'.voting.tokenUsed tokenId = true ∧
      getVotes campaignId w'.voting = 1 ∧
      w'.manager = w.manager ∧
      w'.nft = w.nft ∧
      step (.vote sender campaignId tokenId) w' = .error .AlreadyUsed := by
  have h0 : w.nft.owners tokenId ≠ 0 := by rw [hown]; exact hsne
  refine ⟨{ w with voting := { w.voting with
      tokenUsed := fun t => if t = tokenId then true else w.voting.tokenUsed t
      campaignVotes := fun c =>
        if c = campaignId then w.voting.campaignVotes c + 1
        else w.voting.campaignVotes c } }, ?_, ?_, ?_, rfl, rfl, ?_⟩
  · simp only [step, vote]
    rw [if_neg h0, if_neg (by simp [hown]), if_neg (by simp [hused]),
      if_neg (by simp [hmatch])]
    rfl
  · simp
  · dsimp only [getVotes] at htally ⊢
    rw [if_pos rfl, htally]
  · simp only [step, vote]
    rw [if_neg h0, if_neg (by simp [hown]), if_pos (by simp)]
    rfl

/-- A handcrafted state for C7's witness: certificate 1 is owned by
account 7, unused, and was minted for campaign 3. -/
def voteWorld : World :=
  { initWorld 1 2 3 4 with
      nft := { (initWorld 1 2 3 4).nft with
        nextTokenId := 2
        owners := fun t => if t = 1 then 7 else 0
        donationDetails := fun t =>
          if t = 1 then { zeroDetail with donor := 7, campaignId := 3 }
          else zeroDetail } }

/-- Witness for C7 at the concrete state `voteWorld`. -/
theorem C7_double_vote_witness :
    ∃ w', step (.vote 7 3 1) voteWorld = .ok w' ∧
      w'.voting.tokenUsed 1 = true ∧
      getVotes 3 w'.voting = 1 ∧
      w'.manager = voteWorld.manager ∧
      w'.nft = voteWorld.nft ∧
      step (.vote 7 3 1) w' = .error .AlreadyUsed :=
  C7_double_vote voteWorld 7 3 1 (by decide) (by decide) (by decide)
    (by decide) (by decide)

/-- **C8**: For every accepted `donate`, a certificate is minted to the
donor and the new donation record's `nftMinted` flag is true iff the
amount is at least `MIN_DONATION_FOR_NFT` and the Certificate Registry
address is configured (non-null); otherwise the registry is untouched
and the flag is false. -/
theorem C8_certificate_mint_iff (w w' : World)
    (sender value campaignId now bh entropy : Nat)
    (h : step (.donate sender value campaignId now bh entropy) w = .ok w') :
    ((value ≥ MIN_DONATION_FOR_NFT ∧ w.manager.nftContract ≠ 0) →
      w'.nft.nextTokenId = w.nft.nextTokenId + 1 ∧
      w'.nft.owners w.nft.nextTokenId = sender ∧
      (w'.nft.donationDetails w.nft.nextTokenId).donor = sender ∧
      (w'.nft.donationDetails w.nft.nextTokenId).amount = value ∧
      (w'.nft.donationDetails w.nft.nextTokenId).campaignId = campaignId ∧
      w'.manager.allDonations = w.manager.allDonations ++
        [{ id := w.manager.allDonations.length + 1, donor := sender
           campaignId := campaignId, amount := value, timestamp := now
           txHash := bh, nftMinted := true }]) ∧
    (¬ (value ≥ MIN_DONATION_FOR_NFT ∧ w.manager.nftContract ≠ 0) →
      w'.nft = w.nft ∧
      w'.manager.allDonations = w.manager.allDonations ++
        [{ id := w.manager.allDonations.length + 1, donor := sender
           campaignId := campaignId, amount := value, timestamp := now
           txHash := bh, nftMinted := false }]) := by
  simp only [step, donate] at h
  by_cases h1 : value = 0
  · rw [if_pos h1] at h
    exact absurd h (by simp)
  rw [if_neg h1] at h
  by_cases h2 : (w.manager.campaigns campaignId).id = 0
  · rw [if_pos h2] at h
    exact absurd h (by simp)
  rw [if_neg h2] at h
  by_cases h3 : ¬ (w.manager.campaigns campaignId).isActive = true
  · rw [if_pos h3] at h
    exact absurd h (by simp)
  rw [if_neg h3] at h
  by_cases h4 : ¬ now ≤ (w.manager.campaigns campaignId).deadline
  · rw [if_pos h4] at h
    exact absurd h (by simp)
  rw [if_neg h4] at h
  by_cases hm : value ≥ MIN_DONATION_FOR_NFT ∧ w.manager.nftContract ≠ 0
  · rw [if_pos hm] at h
    cases hmc : mintCertificate w.managerAddr sender value campaignId
        (w.manager.campaigns campaignId).title bh now entropy w.nft with
    | error e =>
      rw [hmc] at h
      exact absurd h (by simp)
    | ok p =>
      obtain ⟨n', tid⟩ := p
      rw [hmc] at h
      dsimp only at h
      injection h with h
      subst h
      simp only [mintCertificate] at hmc
      by_cases ha : w.managerAddr ≠ w.nft.donationManager
      · rw [if_pos ha] at hmc
        exact absurd hmc (by simp)
      rw [if_neg ha] at hmc
      by_cases hd : sender = 0
      · rw [if_pos hd] at hmc
        exact absurd hmc (by simp)
      rw [if_neg hd] at hmc
      by_cases ho : w.nft.owners w.nft.nextTokenId ≠ 0
      · rw [if_pos ho] at hmc
        exact absurd hmc (by simp)
      rw [if_neg ho] at hmc
      rw [Except.ok.injEq, Prod.mk.injEq] at hmc
      obtain ⟨hn, -⟩ := hmc
      subst hn
      refine ⟨fun _ => ⟨rfl, ?_, ?_, ?_, ?_, ?_⟩, fun hc => absurd hm hc⟩
      · dsimp only
        rw [if_pos rfl]
      · dsimp only
        rw [if_pos rfl]
      · dsimp only
        rw [if_pos rfl]
      · dsimp only
        rw [if_pos rfl]
      · dsimp only
        exact set_append_length w.manager.allDonations _ _
  · rw [if_neg hm] at h
    injection h with h
    subst h
    exact ⟨fun hc => absurd hc hm, fun _ => ⟨rfl, rfl⟩⟩

/-- The wired-up system: the registry's authorized minter points at the
manager's address (4), the manager's registry pointer is configured. -/
def wiredWorld : World :=
  (step (.setNFTContract 1 9)
    ((step (.setDonationManager 2 4) (initWorld 1 2 3 4)).toOption.getD
      (initWorld 1 2 3 4))).toOption.getD (initWorld 1 2 3 4)

/-- `wiredWorld` plus one campaign (id 1, active, deadline 20). -/
def campaignWorld : World :=
  (step (.createCampaign 1 "Food" "d" "c" 100 20 10) wiredWorld).toOption.getD
    wiredWorld

/-- `campaignWorld` after a qualifying donation of 0.01 ether from
account 5 (mints certificate 1). -/
def mintedWorld : World :=
  (step (.donate 5 (10 ^ 16) 1 15 0 777) campaignWorld).toOption.getD
    campaignWorld

/-- Witness for C8 at the concrete qualifying donation. -/
theorem C8_certificate_mint_iff_witness :
    ((10 ^ 16 ≥ MIN_DONATION_FOR_NFT ∧ campaignWorld.manager.nftContract ≠ 0) →
      mintedWorld.nft.nextTokenId = campaignWorld.nft.nextTokenId + 1 ∧
      mintedWorld.nft.owners campaignWorld.nft.nextTokenId = 5 ∧
      (mintedWorld.nft.donationDetails campaignWorld.nft.nextTokenId).donor = 5 ∧
      (mintedWorld.nft.donationDetails campaignWorld.nft.nextTokenId).amount =
        10 ^ 16 ∧
      (mintedWorld.nft.donationDetails campaignWorld.nft.nextTokenId).campaignId
        = 1 ∧
      mintedWorld.manager.allDonations = campaignWorld.manager.allDonations ++
        [{ id := campaignWorld.manager.allDonations.length + 1, donor := 5
           campaignId := 1, amount := 10 ^ 16, timestamp := 15
           txHash := 0, nftMinted := true }]) ∧
    (¬ (10 ^ 16 ≥ MIN_DONATION_FOR_NFT ∧
        campaignWorld.manager.nftContract ≠ 0) →
      mintedWorld.nft = campaignWorld.nft ∧
      mintedWorld.manager.allDonations = campaignWorld.manager.allDonations ++
        [{ id := campaignWorld.manager.allDonations.length + 1, donor := 5
           campaignId := 1, amount := 10 ^ 16, timestamp := 15
           txHash := 0, nftMinted := false }]) :=
  C8_certificate_mint_iff campaignWorld mintedWorld 5 (10 ^ 16) 1 15 0 777 rfl

/-- **C9**: every successful `withdrawWithLog` is exactly the transfer
applied to the logged state: the Expense record is appended and
`totalExpensesLogged` is incremented strictly before the value transfer
executes, so the state the transfer (and any code it triggers) observes
— `withdrawLogged …`, whose balance is still untouched — already
reflects the withdrawal in the audit log. -/
theorem C9_log_before_transfer (w w' : World) (sender : Nat)
    (description : String) (recipient amount campaignId now bh : Nat)
    (h : step (.withdrawWithLog sender description recipient amount campaignId
      now bh) w = .ok w') :
    w'.manager = transferOut amount
      (withdrawLogged description recipient amount campaignId now bh
        w.manager) ∧
    (withdrawLogged description recipient amount campaignId now bh
      w.manager).allExpenses = w.manager.allExpenses ++
        [{ id := w.manager.nextExpenseId, description := description
           amount := amount, recipient := recipient, timestamp := now
           txHash := bh, campaignId := campaignId }] ∧
    (withdrawLogged description recipient amount campaignId now bh
      w.manager).totalExpensesLogged =
        w.manager.totalExpensesLogged + amount ∧
    (withdrawLogged description recipient amount campaignId now bh
      w.manager).balance = w.manager.balance := by
  obtain ⟨m', hm, rfl⟩ := map_ok h
  simp only [withdrawWithLog] at hm
  by_cases h1 : sender ≠ w.manager.owner
  · rw [if_pos h1] at hm
    exact absurd hm (by simp)
  rw [if_neg h1] at hm
  by_cases h2 : description.length = 0
  · rw [if_pos h2] at hm
    exact absurd hm (by simp)
  rw [if_neg h2] at hm
  by_cases h3 : recipient = 0
  · rw [if_pos h3] at hm
    exact absurd hm (by simp)
  rw [if_neg h3] at hm
  by_cases h4 : amount = 0
  · rw [if_pos h4] at hm
    exact absurd hm (by simp)
  rw [if_neg h4] at hm
  by_cases h5 : w.manager.balance < amount
  · rw [if_pos h5] at hm
    exact absurd hm (by simp)
  rw [if_neg h5] at hm
  injection hm with hm
  subst hm
  exact ⟨rfl, rfl, rfl, rfl⟩

/-- `campaignWorld` after a small (non-minting) donation of 100 wei. -/
def fundedWorld : World :=
  (step (.donate 5 100 1 15 0 0) campaignWorld).toOption.getD campaignWorld

/-- `fundedWorld` after the administrator withdraws 40 wei. -/
def withdrawnWorld : World :=
  (step (.withdrawWithLog 1 "water pipes" 8 40 1 16 0) fundedWorld).toOption.getD
    fundedWorld

/-- Witness for C9 at the concrete successful withdrawal. -/
theorem C9_log_before_transfer_witness :
    withdrawnWorld.manager = transferOut 40
      (withdrawLogged "water pipes" 8 40 1 16 0 fundedWorld.manager) ∧
    (withdrawLogged "water pipes" 8 40 1 16 0
      fundedWorld.manager).allExpenses = fundedWorld.manager.allExpenses ++
        [{ id := fundedWorld.manager.nextExpenseId
           description := "water pipes", amount := 40, recipient := 8
           timestamp := 16, txHash := 0, campaignId := 1 }] ∧
    (withdrawLogged "water pipes" 8 40 1 16 0
      fundedWorld.manager).totalExpensesLogged =
        fundedWorld.manager.totalExpensesLogged + 40 ∧
    (withdrawLogged "water pipes" 8 40 1 16 0
      fundedWorld.manager).balance = fundedWorld.manager.balance :=
  C9_log_before_transfer fundedWorld withdrawnWorld 1 "water pipes" 8 40 1
    16 0 rfl

/-- **C10**: `vote(campaignId, tokenId)` succeeds iff the caller is the
current owner of an existing token `tokenId`, the token's used-flag is
false, and the certificate's stored campaign id equals `campaignId`; on
success the tally increments; and the result is entirely independent of
the Campaign Ledger's state — the Ballot Registry never consults it, so
a vote succeeds even when the referenced campaign is inactive, expired,
or absent from the ledger. -/
theorem C10_vote_iff_and_ledger_independent (w : World)
    (sender campaignId tokenId : Nat) :
    ((∃ w', step (.vote sender campaignId tokenId) w = .ok w') ↔
      (w.nft.owners tokenId ≠ 0 ∧ w.nft.owners tokenId = sender ∧
       w.voting.tokenUsed tokenId = false ∧
       (w.nft.donationDetails tokenId).campaignId = campaignId)) ∧
    (∀ w', step (.vote sender campaignId tokenId) w = .ok w' →
      getVotes campaignId w'.voting = getVotes campaignId w.voting + 1) ∧
    (∀ m', (step (.vote sender campaignId tokenId)
        { w with manager := m' }).map World.voting =
      (step (.vote sender campaignId tokenId) w).map World.voting) := by
  refine ⟨⟨?_, ?_⟩, ?_, ?_⟩
  · rintro ⟨w', hok⟩
    simp only [step, vote] at hok
    by_cases h1 : w.nft.owners tokenId = 0
    · rw [if_pos h1] at hok
      exact absurd hok (by simp [Except.map])
    rw [if_neg h1] at hok
    by_cases h2 : w.nft.owners tokenId ≠ sender
    · rw [if_pos h2] at hok
      exact absurd hok (by simp [Except.map])
    rw [if_neg h2] at hok
    by_cases h3 : w.voting.tokenUsed tokenId = true
    · rw [if_pos h3] at hok
      exact absurd hok (by simp [Except.map])
    rw [if_neg h3] at hok
    by_cases h4 : (w.nft.donationDetails tokenId).campaignId ≠ campaignId
    · rw [if_pos h4] at hok
      exact absurd hok (by simp [Except.map])
    exact ⟨h1, not_not.mp h2, Bool.not_eq_true _ ▸ h3, not_not.mp h4⟩
  · rintro ⟨h1, h2, h3, h4⟩
    refine ⟨{ w with voting := { w.voting with
      tokenUsed := fun t => if t = tokenId then true else w.voting.tokenUsed t
      campaignVotes := fun c =>
        if c = campaignId then w.voting.campaignVotes c + 1
        else w.voting.campaignVotes c } }, ?_⟩
    simp only [step, vote]
    rw [if_neg h1, if_neg (by simp [h2]), if_neg (by simp [h3]),
      if_neg (by simp [h4])]
    rfl
  · intro w' hok
    obtain ⟨v', hv, rfl⟩ := map_ok hok
    simp only [vote] at hv
    by_cases h1 : w.nft.owners tokenId = 0
    · rw [if_pos h1] at hv
      exact absurd hv (by simp)
    rw [if_neg h1] at hv
    by_cases h2 : w.nft.owners tokenId ≠ sender
    · rw [if_pos h2] at hv
      exact absurd hv (by simp)
    rw [if_neg h2] at hv
    by_cases h3 : w.voting.tokenUsed tokenId = true
    · rw [if_pos h3] at hv
      exact absurd hv (by simp)
    rw [if_neg h3] at hv
    by_cases h4 : (w.nft.donationDetails tokenId).campaignId ≠ campaignId
    · rw [if_pos h4] at hv
      exact absurd hv (by simp)
    rw [if_neg h4] at hv
    injection hv with hv
    subst hv
    dsimp only [getVotes]
    rw [if_pos rfl]
  · intro m'
    dsimp only [step]
    cases hv : vote sender campaignId tokenId w.nft w.voting <;>
      simp [Except.map, hv]

/-! ## C5: the leaderboard sort -/

theorem getD_eq_getElem (l : List (Nat × Nat)) (i : Nat) (d : Nat × Nat)
    (h : i < l.length) : l.getD i d = l[i] := by
  rw [List.getD_eq_getElem?_getD, List.getElem?_eq_getElem h]
  rfl

theorem getD_mem (l : List (Nat × Nat)) (i : Nat) (d : Nat × Nat)
    (h : i < l.length) : l.getD i d ∈ l := by
  rw [getD_eq_getElem l i d h]
  exact List.getElem_mem h

theorem get?_eq_some_getD (l : List (Nat × Nat)) (i : Nat) (d : Nat × Nat)
    (h : i < l.length) : l.get? i = some (l.getD i d) := by
  rw [getD_eq_getElem l i d h, List.get?_eq_getElem?, List.getElem?_eq_getElem h]

theorem set_getD_self (l : List (Nat × Nat)) (i : Nat) (x : Nat × Nat)
    (h : l.get? i = some x) : l.set i x = l := by
  have hi : i < l.length := by
    by_contra hge
    rw [List.get?_eq_getElem?, List.getElem?_eq_none (by omega)] at h
    cases h
  apply List.ext_getElem (by simp)
  intro k h1 h2
  by_cases hk : k = i
  · subst hk
    rw [List.getElem_set_self]
    rw [List.get?_eq_getElem?, List.getElem?_eq_getElem h2] at h
    exact (Option.some.injEq _ _ ▸ h).symm
  · rw [List.getElem_set_ne (fun hh => hk hh.symm)]

theorem listSwap_getD_ne (l : List (Nat × Nat)) (i j k : Nat) (d : Nat × Nat)
    (hki : k ≠ i) (hkj : k ≠ j) :
    (listSwap l i j).getD k d = l.getD k d := by
  unfold listSwap
  rcases hi : l.get? i with _ | x
  · rfl
  rcases hj : l.get? j with _ | y
  · rfl
  rw [List.getD_eq_getElem?_getD, List.getElem?_set_ne (fun hh => hkj hh.symm),
    List.getElem?_set_ne (fun hh => hki hh.symm), ← List.getD_eq_getElem?_getD]

theorem listSwap_getD_left (l : List (Nat × Nat)) (i j : Nat) (d : Nat × Nat)
    (hi : i < l.length) (hj : j < l.length) :
    (listSwap l i j).getD i d = l.getD j d := by
  unfold listSwap
  rw [get?_eq_some_getD l i d hi, get?_eq_some_getD l j d hj]
  dsimp only
  by_cases hij : i = j
  · subst hij
    rw [List.set_set, List.getD_eq_getElem?_getD,
      List.getElem?_set_self (by simpa using hi)]
    rfl
  · rw [List.getD_eq_getElem?_getD, List.getElem?_set_ne (fun hh => hij hh.symm),
      List.getElem?_set_self (by simpa using hi)]
    rfl

theorem listSwap_getD_right (l : List (Nat × Nat)) (i j : Nat) (d : Nat × Nat)
    (hi : i < l.length) (hj : j < l.length) :
    (listSwap l i j).getD j d = l.getD i d := by
  unfold listSwap
  rw [get?_eq_some_getD l i d hi, get?_eq_some_getD l j d hj]
  dsimp only
  rw [List.getD_eq_getElem?_getD,
    List.getElem?_set_self (by simpa using hj)]
  rfl

theorem get?_set_perm (l : List (Nat × Nat)) (j : Nat) (a y : Nat × Nat)
    (h : l.get? j = some y) : (y :: l.set j a).Perm (a :: l) := by
  induction l generalizing j with
  | nil => cases h
  | cons b t ih =>
    cases j with
    | zero =>
      rw [List.get?] at h
      injection h with h
      subst h
      dsimp [List.set]
      exact List.Perm.swap a b t
    | succ j =>
      rw [List.get?] at h
      exact ((List.Perm.swap b y _).trans (((ih j h).cons b).trans
        (List.Perm.swap a b t)))

theorem set_set_swap_perm : ∀ (l : List (Nat × Nat)) (i j : Nat)
    (x y : Nat × Nat), l.get? i = some x → l.get? j = some y →
    ((l.set i y).set j x).Perm l := by
  intro l
  induction l with
  | nil =>
    intro i j x y hi _
    cases hi
  | cons b t ih =>
    intro i j x y hi hj
    cases i with
    | zero =>
      rw [List.get?] at hi
      injection hi with hi
      subst hi
      cases j with
      | zero =>
        rw [List.get?] at hj
        injection hj with hj
        subst hj
        dsimp [List.set]
        exact List.Perm.refl _
      | succ j =>
        rw [List.get?] at hj
        dsimp [List.set]
        exact get?_set_perm t j b y hj
    | succ i =>
      rw [List.get?] at hi
      cases j with
      | zero =>
        rw [List.get?] at hj
        injection hj with hj
        subst hj
        dsimp [List.set]
        exact get?_set_perm t i b x hi
      | succ j =>
        rw [List.get?] at hj
        dsimp [List.set]
        exact (ih i j x y hi hj).cons b

theorem listSwap_perm (l : List (Nat × Nat)) (i j : Nat) :
    (listSwap l i j).Perm l := by
  unfold listSwap
  rcases hi : l.get? i with _ | x
  · exact List.Perm.refl l
  rcases hj : l.get? j with _ | y
  · exact List.Perm.refl l
  exact set_set_swap_perm l i j x y hi hj

theorem selInner_perm (l : List (Nat × Nat)) (i j : Nat) :
    (selInner l i j).Perm l := by
  rw [selInner]
  split
  · refine (selInner_perm _ i (j + 1)).trans ?_
    split
    · exact listSwap_perm l i j
    · exact List.Perm.refl l
  · exact List.Perm.refl l
termination_by l.length - j
decreasing_by
  split
  · rw [listSwap_length]; omega
  · omega

theorem selInner_getD_lt (l : List (Nat × Nat)) (i j k : Nat) (d : Nat × Nat)
    (hk : k < j) (hki : k ≠ i) :
    (selInner l i j).getD k d = l.getD k d := by
  rw [selInner]
  split
  · rw [selInner_getD_lt _ i (j + 1) k d (by omega) hki]
    split
    · exact listSwap_getD_ne l i j k d hki (by omega)
    · rfl
  · rfl
termination_by l.length - j
decreasing_by
  split
  · rw [listSwap_length]; omega
  · omega

theorem selInner_max (l : List (Nat × Nat)) (i j : Nat)
    (hij : i < j) (hi : i < l.length) :
    (l.getD i (0, 0)).2 ≤ ((selInner l i j).getD i (0, 0)).2 ∧
    ∀ k, j ≤ k → k < l.length →
      ((selInner l i j).getD k (0, 0)).2 ≤ ((selInner l i j).getD i (0, 0)).2 := by
  rw [selInner]
  split
  · rename_i h
    have hlen1 : (if (l.getD j (0, 0)).2 > (l.getD i (0, 0)).2 then listSwap l i j
        else l).length = l.length := by
      split
      · exact listSwap_length l i j
      · rfl
    have hi1 : (l.getD i (0, 0)).2 ≤
        ((if (l.getD j (0, 0)).2 > (l.getD i (0, 0)).2 then listSwap l i j
          else l).getD i (0, 0)).2 := by
      split
      · rename_i hc
        rw [listSwap_getD_left l i j _ hi h]
        omega
      · exact le_refl _
    have hj1 : ((if (l.getD j (0, 0)).2 > (l.getD i (0, 0)).2 then listSwap l i j
        else l).getD j (0, 0)).2 ≤
        ((if (l.getD j (0, 0)).2 > (l.getD i (0, 0)).2 then listSwap l i j
          else l).getD i (0, 0)).2 := by
      split
      · rename_i hc
        rw [listSwap_getD_left l i j _ hi h, listSwap_getD_right l i j _ hi h]
        omega
      · rename_i hc
        omega
    obtain ⟨iha, ihb⟩ := selInner_max
      (if (l.getD j (0, 0)).2 > (l.getD i (0, 0)).2 then listSwap l i j else l)
      i (j + 1) (by omega) (by rw [hlen1]; omega)
    refine ⟨hi1.trans iha, ?_⟩
    intro k hjk hk
    by_cases hkj : k = j
    · subst hkj
      rw [selInner_getD_lt _ i (k + 1) k _ (by omega) (by omega)]
      exact hj1.trans iha
    · exact ihb k (by omega) (by rw [hlen1]; exact hk)
  · rename_i h
    refine ⟨le_refl _, ?_⟩
    intro k hjk hk
    omega
termination_by l.length - j
decreasing_by
  split
  · rw [listSwap_length]; omega
  · omega

theorem selSortFrom_perm (l : List (Nat × Nat)) (i : Nat) :
    (selSortFrom l i).Perm l := by
  rw [selSortFrom]
  split
  · exact (selSortFrom_perm _ (i + 1)).trans (selInner_perm l i (i + 1))
  · exact List.Perm.refl l
termination_by l.length - i
decreasing_by
  rw [selInner_length]; omega

theorem take_eq_of_getD_eq (l l' : List (Nat × Nat)) (i : Nat)
    (hlen : l'.length = l.length)
    (h : ∀ k, k < i → l'.getD k (0, 0) = l.getD k (0, 0)) :
    l'.take i = l.take i := by
  apply List.ext_getElem (by simp [hlen])
  intro k h1 h2
  rw [List.getElem_take, List.getElem_take]
  have hk1 : k < l'.length := by
    simp [List.length_take] at h1
    omega
  have hk2 : k < l.length := by
    simp [List.length_take] at h2
    omega
  have hk : k < i := by
    simp [List.length_take] at h1
    omega
  have := h k hk
  rw [getD_eq_getElem _ _ _ hk1, getD_eq_getElem _ _ _ hk2] at this
  exact this

theorem mem_drop_exists_getD (l : List (Nat × Nat)) (i : Nat) (x : Nat × Nat)
    (hx : x ∈ l.drop i) : ∃ k, i ≤ k ∧ k < l.length ∧ l.getD k (0, 0) = x := by
  obtain ⟨⟨m, hm⟩, hget⟩ := List.mem_iff_get.mp hx
  have hm' : m < l.length - i := by
    rw [← List.length_drop]
    exact hm
  refine ⟨i + m, by omega, by omega, ?_⟩
  rw [getD_eq_getElem l (i + m) _ (by omega), ← hget, List.get_eq_getElem]
  exact (List.getElem_drop l).symm

theorem getD_mem_drop (l : List (Nat × Nat)) (i k : Nat) (hik : i ≤ k)
    (hk : k < l.length) : l.getD k (0, 0) ∈ l.drop i := by
  have h2 : k - i < (l.drop i).length := by
    rw [List.length_drop]
    omega
  have h4 : (l.drop i)[k - i] = l.getD k (0, 0) := by
    rw [List.getElem_drop l, getD_eq_getElem l k _ hk]
    congr 1
    omega
  rw [← h4]
  exact List.getElem_mem h2

theorem perm_drop_of_take_eq (l l' : List (Nat × Nat)) (i : Nat)
    (hperm : l'.Perm l) (htake : l'.take i = l.take i) :
    (l'.drop i).Perm (l.drop i) := by
  have h1 := List.take_append_drop i l'
  have h2 := List.take_append_drop i l
  apply (List.perm_append_left_iff (l.take i)).mp
  have step2 : (l'.take i ++ l'.drop i).Perm (l.take i ++ l.drop i) := by
    rw [h1, h2]
    exact hperm
  nth_rewrite 1 [← htake]
  exact step2

/-- After the outer loop starting at `i`, the list is sorted descending
by totals, provided every position before `i` already dominates
everything after it. -/
theorem selSortFrom_sorted (l : List (Nat × Nat)) (i : Nat)
    (hdom : ∀ a b, a < i → a < b → b < l.length →
      (l.getD b (0, 0)).2 ≤ (l.getD a (0, 0)).2) :
    ∀ a b, a < b → b < (selSortFrom l i).length →
      ((selSortFrom l i).getD b (0, 0)).2 ≤
        ((selSortFrom l i).getD a (0, 0)).2 := by
  rw [selSortFrom]
  split
  · rename_i h
    apply selSortFrom_sorted (selInner l i (i + 1)) (i + 1)
    intro a b ha hab hb
    have hlen : (selInner l i (i + 1)).length = l.length := selInner_length l i (i + 1)
    have hbl : b < l.length := by rw [← hlen]; exact hb
    obtain ⟨hmax0, hmaxk⟩ := selInner_max l i (i + 1) (by omega) h
    by_cases hai : a < i
    · have hLa : (selInner l i (i + 1)).getD a (0, 0) = l.getD a (0, 0) :=
        selInner_getD_lt l i (i + 1) a _ (by omega) (by omega)
      by_cases hbi : b < i
      · have hLb : (selInner l i (i + 1)).getD b (0, 0) = l.getD b (0, 0) :=
          selInner_getD_lt l i (i + 1) b _ (by omega) (by omega)
        rw [hLa, hLb]
        exact hdom a b hai hab hbl
      · have hmem : (selInner l i (i + 1)).getD b (0, 0) ∈
            (selInner l i (i + 1)).drop i :=
          getD_mem_drop _ i b (by omega) hb
        have htake : (selInner l i (i + 1)).take i = l.take i := by
          apply take_eq_of_getD_eq l _ i hlen
          intro k hk
          exact selInner_getD_lt l i (i + 1) k _ (by omega) (by omega)
        have hdropperm : ((selInner l i (i + 1)).drop i).Perm (l.drop i) :=
          perm_drop_of_take_eq l _ i (selInner_perm l i (i + 1)) htake
        obtain ⟨k, hik, hkl, hkeq⟩ :=
          mem_drop_exists_getD l i _ (hdropperm.mem_iff.mp hmem)
        rw [hLa, ← hkeq]
        exact hdom a k hai (by omega) hkl
    · have hai' : a = i := by omega
      subst hai'
      exact hmaxk b (by omega) hbl
  · intro a b hab hb
    rename_i h
    exact hdom a b (by omega) hab hb
termination_by l.length - i
decreasing_by
  rw [selInner_length]; omega

theorem selSort_perm (l : List (Nat × Nat)) : (selSort l).Perm l :=
  selSortFrom_perm l 0

theorem selSort_sorted (l : List (Nat × Nat)) :
    ∀ a b, a < b → b < (selSort l).length →
      ((selSort l).getD b (0, 0)).2 ≤ ((selSort l).getD a (0, 0)).2 :=
  selSortFrom_sorted l 0 (fun _ _ ha _ _ => absurd ha (by omega))

/-- **C5 (amended)**: `getLeaderboard n` pairs each unique donor (in
insertion order) with their running total, sorts the pairs by total
descending with the swap sort (`selSort` — the nested loops of
part_000:573-580), and returns the first `n` addresses and amounts
(clamped to the number of unique donors).  The sort's output is a
permutation of the donor/total pairs and is sorted descending; the order
among equal totals is whatever the swap sort produces — NOT insertion
order (see the counterexample). -/
theorem C5_leaderboard_sorted_perm_truncated (count : Nat) (m : ManagerState) :
    (selSort (m.uniqueDonors.map fun a => (a, m.donorTotalAmount a))).Perm
      (m.uniqueDonors.map fun a => (a, m.donorTotalAmount a)) ∧
    (∀ a b, a < b →
      b < (selSort (m.uniqueDonors.map fun a =>
        (a, m.donorTotalAmount a))).length →
      ((selSort (m.uniqueDonors.map fun a =>
        (a, m.donorTotalAmount a))).getD b (0, 0)).2 ≤
      ((selSort (m.uniqueDonors.map fun a =>
        (a, m.donorTotalAmount a))).getD a (0, 0)).2) ∧
    getLeaderboard count m =
      (((selSort (m.uniqueDonors.map fun a => (a, m.donorTotalAmount a))).take
          (if count > m.uniqueDonors.length then m.uniqueDonors.length
           else count)).map Prod.fst,
       ((selSort (m.uniqueDonors.map fun a => (a, m.donorTotalAmount a))).take
          (if count > m.uniqueDonors.length then m.uniqueDonors.length
           else count)).map Prod.snd) ∧
    (getLeaderboard count m).1.length = min count m.uniqueDonors.length := by
  refine ⟨selSort_perm _, selSort_sorted _, rfl, ?_⟩
  dsimp only [getLeaderboard]
  rw [List.length_map, List.length_take,
    (selSort_perm (m.uniqueDonors.map fun a => (a, m.donorTotalAmount a))).length_eq,
    List.length_map]
  by_cases hc : count > m.uniqueDonors.length
  · rw [if_pos hc]
    omega
  · rw [if_neg hc]

/-- Modelled from the spec for the refinement comparison only (the source
has no stable sort): one insertion step of a STABLE descending sort —
a donor inserted later never moves ahead of an equal earlier total. -/
def insertDescStable (p : Nat × Nat) : List (Nat × Nat) → List (Nat × Nat)
  | [] => [p]
  | q :: qs => if p.2 ≤ q.2 then q :: insertDescStable p qs else p :: q :: qs

/-- Modelled from the spec: `getLeaderboard` as §4.1 words it —
"total-donated-per-donor sorted descending, ties broken by insertion
order, truncated to `n`" — i.e. the same pipeline but with a stable
sort. -/
def leaderboardSpec (count : Nat) (m : ManagerState) : List Nat × List Nat :=
  let donorCount := m.uniqueDonors.length
  let count := if count > donorCount then donorCount else count
  let pairs := m.uniqueDonors.map fun a => (a, m.donorTotalAmount a)
  let sorted := pairs.foldl (fun acc p => insertDescStable p acc) []
  ((sorted.take count).map Prod.fst, (sorted.take count).map Prod.snd)

/-- A reachable state with four donors: 1 and 2 donated 2 wei each (a
tie), 3 donated 1 wei, 4 donated 3 wei, in that order. -/
def lbWorld : World :=
  (step (.donate 4 3 1 15 0 0)
    ((step (.donate 3 1 1 15 0 0)
      ((step (.donate 2 2 1 15 0 0)
        ((step (.donate 1 2 1 15 0 0) campaignWorld).toOption.getD
          campaignWorld)).toOption.getD campaignWorld)).toOption.getD
            campaignWorld)).toOption.getD campaignWorld

theorem reachable_campaignWorld : Reachable campaignWorld :=
  @Reachable.step _ _ (.createCampaign 1 "Food" "d" "c" 100 20 10)
    (@Reachable.step _ _ (.setNFTContract 1 9)
      (@Reachable.step _ _ (.setDonationManager 2 4)
        (Reachable.init 1 2 3 4) rfl) rfl) rfl

theorem reachable_lbWorld : Reachable lbWorld :=
  @Reachable.step _ _ (.donate 4 3 1 15 0 0)
    (@Reachable.step _ _ (.donate 3 1 1 15 0 0)
      (@Reachable.step _ _ (.donate 2 2 1 15 0 0)
        (@Reachable.step _ _ (.donate 1 2 1 15 0 0)
          reachable_campaignWorld rfl) rfl) rfl) rfl

/-- **C5 (counterexample)**: the tie between donors 1 and 2 (2 wei each,
donor 1 first) comes back in the order 2 before 1: the swap sort is not
stable, so "ties broken by insertion order" is false on the code. -/
theorem C5_tie_order_counterexample :
    Reachable lbWorld ∧
    lbWorld.manager.uniqueDonors = [1, 2, 3, 4] ∧
    lbWorld.manager.donorTotalAmount 1 = 2 ∧
    lbWorld.manager.donorTotalAmount 2 = 2 ∧
    (getLeaderboard 4 lbWorld.manager).1 = [4, 2, 1, 3] ∧
    (leaderboardSpec 4 lbWorld.manager).1 = [4, 1, 2, 3] ∧
    getLeaderboard 4 lbWorld.manager ≠ leaderboardSpec 4 lbWorld.manager := by
  have hpairs : lbWorld.manager.uniqueDonors.map
      (fun a => (a, lbWorld.manager.donorTotalAmount a)) =
      [(1, 2), (2, 2), (3, 1), (4, 3)] := by decide
  have hcount : lbWorld.manager.uniqueDonors.length = 4 := by decide
  have hgl : (getLeaderboard 4 lbWorld.manager).1 = [4, 2, 1, 3] := by
    dsimp only [getLeaderboard]
    rw [hpairs, hcount]
    norm_num
    simp [selSort, selSortFrom, selInner, listSwap]
  have hspec : (leaderboardSpec 4 lbWorld.manager).1 = [4, 1, 2, 3] := by
    dsimp only [leaderboardSpec]
    rw [hpairs, hcount]
    norm_num
    simp [insertDescStable]
  refine ⟨reachable_lbWorld, by decide, by decide, by decide, hgl, hspec, ?_⟩
  intro heq
  have h1 : (getLeaderboard 4 lbWorld.manager).1 =
      (leaderboardSpec 4 lbWorld.manager).1 := by rw [heq]
  rw [hgl, hspec] at h1
  cases h1

end Donachain
